import Mathlib

/-!
Verification of the FX-Processor wallet ledger (`src/wallet_service.py`).

The embedding is shallow and executable:

* Python `decimal.Decimal` values are modelled by `Dec`, a scaled integer
  `num / 10 ^ exp`.  Python `Decimal` arithmetic on such values is exact, so
  `Dec.add` / `Dec.sub` / `Dec.mul` compute the exact result; comparisons and
  `==` on `Decimal` are numeric, modelled by `Dec.le` / `Dec.lt` / `Dec.eqv`.
  `Decimal.quantize(Decimal(10) ** -2, rounding=ROUND_HALF_UP)` is
  `Dec.quantize2`.
* Python `dict`s are modelled as association lists with `dict` semantics:
  assignment updates an existing key in place or appends a new key at the end
  (`insertL`), `pop` removes the key (`eraseL`), `==` compares key sets and
  values ignoring order (`dictEqvBy`).
* `WalletService` is a record of the four mutable fields; every method becomes
  a state-passing function.  A method that can raise `ValueError` returns
  `Except WalletError _ × WalletService`, where the returned state contains
  exactly the mutations performed before the raise (so a raise mid-method does
  not roll anything back, as in Python).
* `Transaction.timestamp` (`datetime.now()`, display-only wall-clock data) and
  `Transaction.description` (a display-only formatted string) are not
  modelled; no claim depends on them.
-/

/-- A Python `decimal.Decimal` value: the number `num / 10 ^ exp`.
`Decimal("18.70")` is `⟨1870, 2⟩`, `Decimal("0.053")` is `⟨53, 3⟩`,
`Decimal("0")` is `⟨0, 0⟩`. -/
def exceptToSum {ε α : Type} : Except ε α → ε ⊕ α
  | .error e => .inl e
  | .ok a => .inr a

instance {ε α : Type} [DecidableEq ε] [DecidableEq α] : DecidableEq (Except ε α) :=
  fun a b =>
    decidable_of_iff (exceptToSum a = exceptToSum b)
      (by cases a <;> cases b <;> simp [exceptToSum])

structure Dec where
  num : Int
  exp : Nat
deriving DecidableEq, Repr

def Dec.zero : Dec := ⟨0, 0⟩

/-- Exact `Decimal` addition: rescale both operands to the larger exponent. -/
def Dec.add (a b : Dec) : Dec :=
  ⟨a.num * 10 ^ (max a.exp b.exp - a.exp) + b.num * 10 ^ (max a.exp b.exp - b.exp),
   max a.exp b.exp⟩

def Dec.neg (a : Dec) : Dec := ⟨-a.num, a.exp⟩

def Dec.sub (a b : Dec) : Dec := a.add b.neg

/-- Exact `Decimal` multiplication. -/
def Dec.mul (a b : Dec) : Dec := ⟨a.num * b.num, a.exp + b.exp⟩

/-- Numeric comparison of `Decimal` values (`<=`). -/
def Dec.le (a b : Dec) : Prop := a.num * 10 ^ b.exp ≤ b.num * 10 ^ a.exp

/-- Numeric comparison of `Decimal` values (`<`). -/
def Dec.lt (a b : Dec) : Prop := a.num * 10 ^ b.exp < b.num * 10 ^ a.exp

/-- Numeric equality of `Decimal` values (Python `==`). -/
def Dec.eqv (a b : Dec) : Prop := a.num * 10 ^ b.exp = b.num * 10 ^ a.exp

instance : LE Dec := ⟨Dec.le⟩
instance : LT Dec := ⟨Dec.lt⟩

instance (a b : Dec) : Decidable (a ≤ b) :=
  show Decidable (a.num * 10 ^ b.exp ≤ b.num * 10 ^ a.exp) from inferInstance
instance (a b : Dec) : Decidable (a < b) :=
  show Decidable (a.num * 10 ^ b.exp < b.num * 10 ^ a.exp) from inferInstance
instance (a b : Dec) : Decidable (a.eqv b) :=
  show Decidable (a.num * 10 ^ b.exp = b.num * 10 ^ a.exp) from inferInstance

def Dec.beqv (a b : Dec) : Bool := decide (a.eqv b)

/-- Round-half-up division `n / d` for `d > 0`: nearest integer, ties away
from zero (Python's `ROUND_HALF_UP`).  Only used with `d = 10 ^ k`, `k ≥ 1`,
where `d / 2` is exact. -/
def halfUpDivi (n : Int) (d : Nat) : Int :=
  if 0 ≤ n then ((n.toNat + d / 2) / d : Nat) else -(((-n).toNat + d / 2) / d : Nat)

/-- `Decimal.quantize(Decimal(10) ** -2, rounding=ROUND_HALF_UP)`: round the
value to 2 decimal places, half-up (away from zero on ties).  A value with at
most 2 fractional digits is returned unchanged (rescaled to exponent 2). -/
def Dec.quantize2 (a : Dec) : Dec :=
  if a.exp ≤ 2 then ⟨a.num * 10 ^ (2 - a.exp), 2⟩
  else ⟨halfUpDivi a.num (10 ^ (a.exp - 2)), 2⟩

/-- The value of a `Dec` in ℚ. -/
def Dec.toRat (a : Dec) : ℚ := (a.num : ℚ) / 10 ^ a.exp

/-! ### Python `dict`s as association lists -/

/-- `d.get(k)` / `k in d`: first (only) binding of `k`. -/
def lookupL {α β : Type} [DecidableEq α] : List (α × β) → α → Option β
  | [], _ => none
  | p :: rest, k => if p.1 = k then some p.2 else lookupL rest k

/-- `d[k] = v`: overwrite the binding of an existing key in place, otherwise
append the new key at the end (Python dicts keep insertion order). -/
def insertL {α β : Type} [DecidableEq α] : List (α × β) → α → β → List (α × β)
  | [], k, v => [(k, v)]
  | p :: rest, k, v => if p.1 = k then (k, v) :: rest else p :: insertL rest k v

/-- `d.pop(k, None)`: drop the binding of `k`. -/
def eraseL {α β : Type} [DecidableEq α] (l : List (α × β)) (k : α) : List (α × β) :=
  l.filter (fun p => decide (p.1 ≠ k))

/-- Python `==` on dicts: same key set, values equal under `veq` (for
`Decimal` values `==` is numeric, not representational), order ignored. -/
def dictEqvBy {α β : Type} [DecidableEq α] (veq : β → β → Bool)
    (d₁ d₂ : List (α × β)) : Bool :=
  d₁.all (fun p => match lookupL d₂ p.1 with | some v => veq p.2 v | none => false) &&
  d₂.all (fun p => match lookupL d₁ p.1 with | some v => veq v p.2 | none => false)

/-! ### The data model of `wallet_service.py` -/

inductive TransactionType
  | FUND
  | CONVERT
  | WITHDRAW
deriving DecidableEq, Repr

/-- `Transaction` dataclass (timestamp and description omitted, see the file
header). -/
structure Transaction where
  id : String
  user_id : String
  type : TransactionType
  currency : String
  amount : Dec
  from_currency : Option String := none
  to_currency : Option String := none
  exchange_rate : Option Dec := none
deriving DecidableEq, Repr

/-- The four `ValueError`s `WalletService` raises, by the condition reported
in their messages. -/
inductive WalletError
  | InvalidAmount
  | SameCurrency
  | RateUnavailable (from_currency to_currency : String)
  | InsufficientBalance (available : Dec) (currency : String)
deriving DecidableEq, Repr

structure FundResult where
  new_balance : Dec
deriving DecidableEq, Repr

structure ConvertResult where
  converted_amount : Dec
  exchange_rate : Dec
  from_balance : Dec
  to_balance : Dec
deriving DecidableEq, Repr

structure ReconcileResult where
  current_balances : List (String × Dec)
  calculated_balances : List (String × Dec)
  balanced : Bool
deriving DecidableEq, Repr

/-- The mutable state of a `WalletService` instance. -/
structure WalletService where
  wallets : List (String × List (String × Dec))
  transactions : List (String × List Transaction)
  fx_rates : List ((String × String) × Dec)
  transaction_counter : Nat
deriving DecidableEq, Repr

/-- `WalletService.__init__`: empty wallets and logs, the two seeded rates,
counter 0. -/
def WalletService.init : WalletService :=
  { wallets := []
    transactions := []
    fx_rates := [(("USD", "MXN"), ⟨1870, 2⟩), (("MXN", "USD"), ⟨53, 3⟩)]
    transaction_counter := 0 }

/-! ### Observable parts of the state -/

/-- The wallet dictionary stored for a user (`{}` when the user is absent). -/
def wdict (s : WalletService) (u : String) : List (String × Dec) :=
  (lookupL s.wallets u).getD []

/-- The stored balance entry of a user and currency (`none` = no entry). -/
def wlookup (s : WalletService) (u c : String) : Option Dec :=
  lookupL (wdict s u) c

/-- The `Decimal` the code reads as the current balance:
`wallets[user_id].get(currency, Decimal("0"))`. -/
def curDec (s : WalletService) (u c : String) : Dec :=
  (wlookup s u c).getD Dec.zero

/-- The observable balance, as a rational. -/
def bal (s : WalletService) (u c : String) : ℚ := (curDec s u c).toRat

/-- The transaction log stored for a user (`[]` when the user is absent). -/
def logOf (s : WalletService) (u : String) : List Transaction :=
  (lookupL s.transactions u).getD []

/-! ### The methods of `WalletService` -/

/-- `_get_precision`: always 2 ("Standard for USD and MXN"). -/
def _get_precision (_currency : String) : Nat := 2

/-- `_round_amount`: quantize to `10 ** -_get_precision(currency)` half-up;
the precision is 2 for every currency. -/
def _round_amount (amount : Dec) (_currency : String) : Dec :=
  amount.quantize2

/-- `_ensure_wallet_exists`: lazily create the user's (empty) wallet and
transaction list. -/
def _ensure_wallet_exists (s : WalletService) (user_id : String) : WalletService :=
  let s := if (lookupL s.wallets user_id).isSome then s
           else { s with wallets := insertL s.wallets user_id [] }
  if (lookupL s.transactions user_id).isSome then s
  else { s with transactions := insertL s.transactions user_id [] }

/-- `_get_balance`: ensure the wallet exists (a mutation!), then
`wallets[user_id].get(currency, Decimal("0"))`. -/
def _get_balance (s : WalletService) (user_id currency : String) :
    WalletService × Dec :=
  let s := _ensure_wallet_exists s user_id
  (s, curDec s user_id currency)

/-- `_set_balance`: round, then pop the currency if the rounded amount equals
0, else store the rounded amount. -/
def _set_balance (s : WalletService) (user_id currency : String) (amount : Dec) :
    WalletService :=
  let s := _ensure_wallet_exists s user_id
  let rounded := _round_amount amount currency
  let w := wdict s user_id
  if rounded.eqv Dec.zero then
    { s with wallets := insertL s.wallets user_id (eraseL w currency) }
  else
    { s with wallets := insertL s.wallets user_id (insertL w currency rounded) }

/-- `_add_transaction`: append to the user's log. -/
def _add_transaction (s : WalletService) (user_id : String) (t : Transaction) :
    WalletService :=
  let s := _ensure_wallet_exists s user_id
  { s with transactions := insertL s.transactions user_id (logOf s user_id ++ [t]) }

/-- Decimal digits, most significant first; structural recursion on a fuel
bound so the kernel can evaluate it. -/
def natDigitsAux : Nat → Nat → List Nat
  | 0, _ => []
  | fuel + 1, n => if n < 10 then [n] else natDigitsAux fuel (n / 10) ++ [n % 10]

/-- Decimal digits of `n`, most significant first. -/
def natDigits (n : Nat) : List Nat := natDigitsAux (n + 1) n

def decDigitChar (d : Nat) : Char := Char.ofNat (48 + d)

/-- Python `f"{n:06d}"`: the decimal digits of `n`, left-padded with `'0'` to
width 6 (wider numbers are printed in full). -/
def decFormat06 (n : Nat) : String :=
  let ds := (natDigits n).map decDigitChar
  ⟨List.replicate (6 - ds.length) '0' ++ ds⟩

/-- The identifier `f"tx_{c:06d}"` built from counter value `c`. -/
def txId (c : Nat) : String := "tx_" ++ decFormat06 c

/-- `_generate_transaction_id`: increment the shared counter, format it. -/
def _generate_transaction_id (s : WalletService) : String × WalletService :=
  let c := s.transaction_counter + 1
  (txId c, { s with transaction_counter := c })

/-- `fund_wallet`. -/
def fund_wallet (s : WalletService) (user_id currency : String) (amount : Dec) :
    Except WalletError FundResult × WalletService :=
  if amount ≤ Dec.zero then (.error .InvalidAmount, s) else
  let (s, current_balance) := _get_balance s user_id currency
  let new_balance := current_balance.add amount
  let s := _set_balance s user_id currency new_balance
  let (tid, s) := _generate_transaction_id s
  let t : Transaction :=
    { id := tid, user_id := user_id, type := .FUND, currency := currency, amount := amount }
  let s := _add_transaction s user_id t
  (.ok { new_balance := new_balance }, s)

/-- `convert_currency`. -/
def convert_currency (s : WalletService) (user_id from_currency to_currency : String)
    (amount : Dec) : Except WalletError ConvertResult × WalletService :=
  if amount ≤ Dec.zero then (.error .InvalidAmount, s) else
  if from_currency = to_currency then (.error .SameCurrency, s) else
  match lookupL s.fx_rates (from_currency, to_currency) with
  | none => (.error (.RateUnavailable from_currency to_currency), s)
  | some exchange_rate =>
    let (s, current_balance) := _get_balance s user_id from_currency
    if current_balance < amount then
      (.error (.InsufficientBalance current_balance from_currency), s)
    else
      let converted_amount := _round_amount (amount.mul exchange_rate) to_currency
      let new_from_balance := current_balance.sub amount
      let s := _set_balance s user_id from_currency new_from_balance
      let (s, current_to_balance) := _get_balance s user_id to_currency
      let new_to_balance := current_to_balance.add converted_amount
      let s := _set_balance s user_id to_currency new_to_balance
      let (tid, s) := _generate_transaction_id s
      let t : Transaction :=
        { id := tid, user_id := user_id, type := .CONVERT,
          currency := from_currency, amount := amount,
          from_currency := some from_currency, to_currency := some to_currency,
          exchange_rate := some exchange_rate }
      let s := _add_transaction s user_id t
      (.ok { converted_amount := converted_amount, exchange_rate := exchange_rate,
             from_balance := new_from_balance, to_balance := new_to_balance }, s)

/-- `withdraw_funds`. -/
def withdraw_funds (s : WalletService) (user_id currency : String) (amount : Dec) :
    Except WalletError FundResult × WalletService :=
  if amount ≤ Dec.zero then (.error .InvalidAmount, s) else
  let (s, current_balance) := _get_balance s user_id currency
  if current_balance < amount then
    (.error (.InsufficientBalance current_balance currency), s)
  else
    let new_balance := current_balance.sub amount
    let s := _set_balance s user_id currency new_balance
    let (tid, s) := _generate_transaction_id s
    let t : Transaction :=
      { id := tid, user_id := user_id, type := .WITHDRAW, currency := currency, amount := amount }
    let s := _add_transaction s user_id t
    (.ok { new_balance := new_balance }, s)

/-- `get_balances`: ensure the wallet exists, return a copy of it. -/
def get_balances (s : WalletService) (user_id : String) :
    List (String × Dec) × WalletService :=
  let s := _ensure_wallet_exists s user_id
  (wdict s user_id, s)

/-- `get_transactions`: ensure the wallet exists, return a copy of the log. -/
def get_transactions (s : WalletService) (user_id : String) :
    List Transaction × WalletService :=
  let s := _ensure_wallet_exists s user_id
  (logOf s user_id, s)

/-- One iteration of the replay loop in `reconcile_balances`.  A `CONVERT`
transaction always carries its `from_currency` / `to_currency` /
`exchange_rate` fields (the code reads them unconditionally); the `getD`
defaults are never used on transactions the service creates. -/
def reconcileStep (cb : List (String × Dec)) (t : Transaction) : List (String × Dec) :=
  match t.type with
  | .FUND =>
    insertL cb t.currency (((lookupL cb t.currency).getD Dec.zero).add t.amount)
  | .WITHDRAW =>
    insertL cb t.currency (((lookupL cb t.currency).getD Dec.zero).sub t.amount)
  | .CONVERT =>
    let from_currency := t.from_currency.getD ""
    let to_currency := t.to_currency.getD ""
    let exchange_rate := t.exchange_rate.getD Dec.zero
    let cb := insertL cb from_currency
      (((lookupL cb from_currency).getD Dec.zero).sub t.amount)
    let converted_amount := _round_amount (t.amount.mul exchange_rate) to_currency
    insertL cb to_currency (((lookupL cb to_currency).getD Dec.zero).add converted_amount)

/-- `reconcile_balances`: replay the log from zero, round every recomputed
total, keep only strictly positive totals, compare with the live balances. -/
def reconcile_balances (s : WalletService) (user_id : String) :
    ReconcileResult × WalletService :=
  let (transactions, s) := get_transactions s user_id
  let calculated := transactions.foldl reconcileStep []
  let calculated := calculated.map (fun p => (p.1, _round_amount p.2 p.1))
  let calculated := calculated.filter (fun p => decide (Dec.zero < p.2))
  let (current, s) := get_balances s user_id
  ({ current_balances := current, calculated_balances := calculated,
     balanced := dictEqvBy Dec.beqv current calculated }, s)

/-- `update_fx_rates`: `self.fx_rates.update(new_rates)`. -/
def update_fx_rates (s : WalletService) (new_rates : List ((String × String) × Dec)) :
    WalletService :=
  { s with fx_rates := new_rates.foldl (fun t p => insertL t p.1 p.2) s.fx_rates }

/-! ### Sequences of public calls -/

/-- One public mutating call with its arguments. -/
inductive Op
  | fund (user_id currency : String) (amount : Dec)
  | withdraw (user_id currency : String) (amount : Dec)
  | convert (user_id from_currency to_currency : String) (amount : Dec)
deriving DecidableEq, Repr

/-- Perform one call, keeping whatever state it left behind (also on error:
a raise does not roll back mutations already made). -/
def applyOp (s : WalletService) : Op → Except WalletError Unit × WalletService
  | .fund u c a => let (r, s') := fund_wallet s u c a; (r.map fun _ => (), s')
  | .withdraw u c a => let (r, s') := withdraw_funds s u c a; (r.map fun _ => (), s')
  | .convert u f t a => let (r, s') := convert_currency s u f t a; (r.map fun _ => (), s')

/-- Run a sequence of calls, successful or failing. -/
def runOps (s : WalletService) : List Op → WalletService
  | [] => s
  | op :: ops => runOps (applyOp s op).2 ops

/-- Run a sequence of calls, `none` as soon as one fails. -/
def runOk (s : WalletService) : List Op → Option WalletService
  | [] => some s
  | op :: ops =>
    match applyOp s op with
    | (.ok _, s') => runOk s' ops
    | (.error _, _) => none

/-! ### The value of a `Dec` in ℚ -/

theorem key_scale (n : ℤ) (e m : Nat) (h : e ≤ m) :
    ((n : ℚ) * 10 ^ (m - e)) / 10 ^ m = (n : ℚ) / 10 ^ e := by
  rw [div_eq_div_iff (by positivity) (by positivity), mul_assoc, ← pow_add,
    Nat.sub_add_cancel h]

theorem Dec.toRat_zero : Dec.zero.toRat = 0 := by
  simp [Dec.zero, Dec.toRat]

theorem Dec.toRat_add (a b : Dec) : (a.add b).toRat = a.toRat + b.toRat := by
  show ((a.num * 10 ^ (max a.exp b.exp - a.exp) +
      b.num * 10 ^ (max a.exp b.exp - b.exp) : ℤ) : ℚ) / 10 ^ max a.exp b.exp = _
  push_cast
  rw [add_div, key_scale a.num a.exp _ (le_max_left _ _),
    key_scale b.num b.exp _ (le_max_right _ _)]
  rfl

theorem Dec.toRat_neg (a : Dec) : a.neg.toRat = -a.toRat := by
  show ((-a.num : ℤ) : ℚ) / 10 ^ a.exp = -((a.num : ℚ) / 10 ^ a.exp)
  push_cast
  ring

theorem Dec.toRat_sub (a b : Dec) : (a.sub b).toRat = a.toRat - b.toRat := by
  rw [Dec.sub, Dec.toRat_add, Dec.toRat_neg]
  ring

theorem Dec.toRat_mul (a b : Dec) : (a.mul b).toRat = a.toRat * b.toRat := by
  show ((a.num * b.num : ℤ) : ℚ) / 10 ^ (a.exp + b.exp) = _
  push_cast
  rw [pow_add, ← div_mul_div_comm]
  rfl

theorem Dec.le_iff {a b : Dec} : a ≤ b ↔ a.toRat ≤ b.toRat := by
  show a.num * 10 ^ b.exp ≤ b.num * 10 ^ a.exp ↔ _
  rw [Dec.toRat, Dec.toRat, div_le_div_iff (by positivity) (by positivity)]
  constructor
  · intro h
    exact_mod_cast h
  · intro h
    exact_mod_cast h

theorem Dec.lt_iff {a b : Dec} : a < b ↔ a.toRat < b.toRat := by
  show a.num * 10 ^ b.exp < b.num * 10 ^ a.exp ↔ _
  rw [Dec.toRat, Dec.toRat, div_lt_div_iff (by positivity) (by positivity)]
  constructor
  · intro h
    exact_mod_cast h
  · intro h
    exact_mod_cast h

theorem Dec.eqv_iff {a b : Dec} : a.eqv b ↔ a.toRat = b.toRat := by
  show a.num * 10 ^ b.exp = b.num * 10 ^ a.exp ↔ _
  rw [Dec.toRat, Dec.toRat, div_eq_div_iff (by positivity) (by positivity)]
  constructor
  · intro h
    exact_mod_cast h
  · intro h
    exact_mod_cast h

theorem Dec.eqv_zero_iff {a : Dec} : a.eqv Dec.zero ↔ a.toRat = 0 := by
  rw [Dec.eqv_iff, Dec.toRat_zero]

/-- Round-half-up at 2 decimal places, on ℚ: the value computed by
`_round_amount`. -/
def rndQ (x : ℚ) : ℚ :=
  if 0 ≤ x then ((⌊x * 100 + 1 / 2⌋ : ℤ) : ℚ) / 100
  else -(((⌊-x * 100 + 1 / 2⌋ : ℤ) : ℚ) / 100)

/-- A whole number of cents is unchanged by rounding. -/
theorem rndQ_cent (z : ℤ) : rndQ ((z : ℚ) / 100) = (z : ℚ) / 100 := by
  have h100 : ((z : ℚ) / 100) * 100 = (z : ℚ) := by
    field_simp
  have hfl : ∀ w : ℤ, ⌊(w : ℚ) + 1 / 2⌋ = w := by
    intro w
    rw [add_comm, Int.floor_add_int]
    norm_num
  unfold rndQ
  split
  · rw [h100, hfl]
  · rw [show -((z : ℚ) / 100) * 100 = ((-z : ℤ) : ℚ) by push_cast; field_simp, hfl]
    push_cast
    ring

theorem rndQ_nonneg {x : ℚ} (hx : 0 ≤ x) : 0 ≤ rndQ x := by
  rw [rndQ, if_pos hx]
  have : (0 : ℤ) ≤ ⌊x * 100 + 1 / 2⌋ := by
    rw [Int.le_floor]
    push_cast
    nlinarith
  positivity

/-- `x` is a whole number of cents. -/
def centQ (x : ℚ) : Prop := ∃ z : ℤ, x = (z : ℚ) / 100

theorem centQ_rndQ (x : ℚ) : centQ (rndQ x) := by
  rw [rndQ]
  split
  · exact ⟨_, rfl⟩
  · exact ⟨-⌊-x * 100 + 1 / 2⌋, by push_cast; ring⟩

theorem rndQ_of_centQ {x : ℚ} (hx : centQ x) : rndQ x = x := by
  obtain ⟨z, rfl⟩ := hx
  exact rndQ_cent z

theorem centQ_add {x y : ℚ} (hx : centQ x) (hy : centQ y) : centQ (x + y) := by
  obtain ⟨a, rfl⟩ := hx
  obtain ⟨b, rfl⟩ := hy
  exact ⟨a + b, by push_cast; ring⟩

theorem centQ_neg {x : ℚ} (hx : centQ x) : centQ (-x) := by
  obtain ⟨a, rfl⟩ := hx
  exact ⟨-a, by push_cast; ring⟩

theorem centQ_sub {x y : ℚ} (hx : centQ x) (hy : centQ y) : centQ (x - y) := by
  rw [sub_eq_add_neg]
  exact centQ_add hx (centQ_neg hy)

theorem centQ_zero : centQ 0 := ⟨0, by norm_num⟩

/-- The bridge: `Dec.quantize2` computes exactly `rndQ` on values. -/
theorem Dec.toRat_quantize2 (a : Dec) : a.quantize2.toRat = rndQ a.toRat := by
  rw [Dec.quantize2]
  split
  case isTrue he =>
    have hx : a.toRat = ((a.num * 10 ^ (2 - a.exp) : ℤ) : ℚ) / 100 := by
      rw [Dec.toRat, show ((100 : ℚ)) = 10 ^ 2 by norm_num]
      push_cast
      rw [key_scale a.num a.exp 2 he]
    rw [hx, rndQ_cent]
    rw [Dec.toRat]
    norm_num
  case isFalse he =>
    have hk : 1 ≤ a.exp - 2 := by omega
    set k := a.exp - 2 with hkdef
    set d : Nat := 10 ^ k with hddef
    have hdpos : 0 < d := Nat.pos_pow_of_pos k (by norm_num)
    have h2dvd : 2 ∣ d := by
      refine dvd_trans ⟨5, rfl⟩ (dvd_pow_self 10 ?_)
      omega
    have h2d : 2 * (d / 2) = d := Nat.mul_div_cancel' h2dvd
    have hhalf : ((d / 2 : ℕ) : ℚ) / (d : ℚ) = 1 / 2 := by
      rw [div_eq_div_iff (by exact_mod_cast hdpos.ne') (by norm_num)]
      exact_mod_cast (by omega : d / 2 * 2 = 1 * d)
    have hde : (10 : ℚ) ^ a.exp = (d : ℚ) * 100 := by
      rw [hddef]
      push_cast
      rw [show (100 : ℚ) = 10 ^ 2 by norm_num, ← pow_add]
      congr 1
      omega
    have hx100 : a.toRat * 100 = (a.num : ℚ) / d := by
      rw [Dec.toRat, hde]
      field_simp
      ring
    have floor_nat : ∀ j : ℕ, ⌊((j : ℚ)) / (d : ℚ)⌋ = ((j / d : ℕ) : ℤ) := by
      intro j
      rw [show ((j : ℚ)) = ((j : ℤ) : ℚ) by push_cast; ring,
        show ((d : ℚ)) = ((d : ℕ) : ℚ) by push_cast; ring,
        Rat.floor_intCast_div_natCast]
      omega
    by_cases hn : 0 ≤ a.num
    · have hxpos : 0 ≤ a.toRat := by
        rw [Dec.toRat]
        positivity
      have hcast : ((a.num.toNat : ℕ) : ℚ) = (a.num : ℚ) := by
        exact_mod_cast Int.toNat_of_nonneg hn
      rw [rndQ, if_pos hxpos, hx100]
      have hsum : (a.num : ℚ) / d + 1 / 2 = ((a.num.toNat + d / 2 : ℕ) : ℚ) / d := by
        push_cast
        rw [add_div, hhalf, hcast]
      rw [hsum, floor_nat]
      rw [halfUpDivi, if_pos hn, Dec.toRat]
      push_cast
      norm_num
    · push_neg at hn
      have hxneg : ¬ (0 ≤ a.toRat) := by
        rw [Dec.toRat]
        push_neg
        apply div_neg_of_neg_of_pos
        · exact_mod_cast hn
        · positivity
      have hcast : (((-a.num).toNat : ℕ) : ℚ) = ((-a.num : ℤ) : ℚ) := by
        exact_mod_cast Int.toNat_of_nonneg (by omega : (0:ℤ) ≤ -a.num)
      rw [rndQ, if_neg hxneg]
      have hx100n : -a.toRat * 100 = ((-a.num : ℤ) : ℚ) / d := by
        rw [neg_mul, hx100]
        push_cast
        ring
      rw [hx100n]
      have hsum : ((-a.num : ℤ) : ℚ) / d + 1 / 2 = (((-a.num).toNat + d / 2 : ℕ) : ℚ) / d := by
        push_cast
        rw [add_div, hhalf]
        push_cast at hcast
        rw [hcast]
      rw [hsum, floor_nat]
      rw [halfUpDivi, if_neg (by omega), Dec.toRat]
      push_cast
      ring

/-- The exponent after quantizing is always 2. -/
theorem Dec.quantize2_exp (a : Dec) : a.quantize2.exp = 2 := by
  rw [Dec.quantize2]
  split <;> rfl

/-! ### Lemmas about the association-list dictionaries -/

section DictLemmas

variable {α β γ : Type} [DecidableEq α]

theorem lookupL_insertL (l : List (α × β)) (k : α) (v : β) (x : α) :
    lookupL (insertL l k v) x = if k = x then some v else lookupL l x := by
  induction l with
  | nil => simp [insertL, lookupL]
  | cons p rest ih =>
    by_cases hpk : p.1 = k
    · simp only [insertL, if_pos hpk, lookupL]
      by_cases hkx : k = x
      · simp [hkx]
      · simp [hkx, hpk ▸ hkx]
    · simp only [insertL, if_neg hpk, lookupL]
      by_cases hpx : p.1 = x
      · have : ¬ k = x := fun h => hpk (h ▸ hpx)
        simp [hpx, this]
      · simp [hpx, ih]

theorem lookupL_eraseL (l : List (α × β)) (k x : α) :
    lookupL (eraseL l k) x = if k = x then none else lookupL l x := by
  induction l with
  | nil => simp [eraseL, lookupL]
  | cons p rest ih =>
    simp only [eraseL, List.filter_cons] at ih ⊢
    by_cases hpk : p.1 = k
    · have hd : (decide (p.1 ≠ k)) = false := by simp [hpk]
      rw [hd]
      simp only [Bool.false_eq_true, if_false]
      rw [ih]
      by_cases hkx : k = x
      · simp [hkx]
      · have hpx : ¬ p.1 = x := fun hh => hkx (by rw [← hpk, hh])
        simp [lookupL, hkx, hpx]
    · have hd : (decide (p.1 ≠ k)) = true := by simp [hpk]
      rw [hd]
      simp only [if_true]
      by_cases hpx : p.1 = x
      · have hkx : ¬ k = x := fun hh => hpk (by rw [hh, hpx])
        simp [lookupL, hpx, hkx]
      · simp only [lookupL, if_neg hpx]
        exact ih

theorem lookupL_map_value (g : α → β → γ) (l : List (α × β)) (x : α) :
    lookupL (l.map (fun p => (p.1, g p.1 p.2))) x = (lookupL l x).map (g x) := by
  induction l with
  | nil => simp [lookupL]
  | cons p rest ih =>
    by_cases hpx : p.1 = x
    · subst hpx
      simp [lookupL, ih]
    · simp [lookupL, hpx, ih]

/-- The keys of an association list are pairwise distinct (all dictionaries a
run of the service builds satisfy this). -/
def NDK (l : List (α × β)) : Prop := (l.map Prod.fst).Nodup

theorem ndk_nil : NDK ([] : List (α × β)) := by simp [NDK]

theorem not_mem_keys_of_lookupL_none {l : List (α × β)} {k : α}
    (h : lookupL l k = none) : k ∉ l.map Prod.fst := by
  induction l with
  | nil => simp
  | cons p rest ih =>
    simp only [lookupL] at h
    by_cases hpk : p.1 = k
    · simp [hpk] at h
    · simp only [if_neg hpk] at h
      simp only [List.map_cons, List.mem_cons]
      rintro (h1 | h2)
      · exact hpk h1.symm
      · exact ih h h2

theorem lookupL_none_of_not_mem_keys {l : List (α × β)} {k : α}
    (h : k ∉ l.map Prod.fst) : lookupL l k = none := by
  induction l with
  | nil => rfl
  | cons p rest ih =>
    simp only [List.map_cons, List.mem_cons, not_or] at h
    have hpk : ¬ p.1 = k := fun hh => h.1 (Eq.symm hh)
    simp only [lookupL, if_neg hpk]
    exact ih h.2

theorem mem_insertL {l : List (α × β)} {k : α} {v : β} {q : α × β}
    (h : q ∈ insertL l k v) : q = (k, v) ∨ q ∈ l := by
  induction l with
  | nil => simpa [insertL] using h
  | cons p rest ih =>
    by_cases hpk : p.1 = k
    · simp only [insertL, if_pos hpk, List.mem_cons] at h
      rcases h with h1 | h2
      · exact Or.inl h1
      · exact Or.inr (List.mem_cons.mpr (Or.inr h2))
    · simp only [insertL, if_neg hpk, List.mem_cons] at h
      rcases h with h1 | h2
      · exact Or.inr (List.mem_cons.mpr (Or.inl h1))
      · rcases ih h2 with h3 | h4
        · exact Or.inl h3
        · exact Or.inr (List.mem_cons.mpr (Or.inr h4))

theorem ndk_insertL (l : List (α × β)) (k : α) (v : β) (h : NDK l) :
    NDK (insertL l k v) := by
  induction l with
  | nil => simp [insertL, NDK]
  | cons p rest ih =>
    simp only [NDK, List.map_cons, List.nodup_cons] at h
    by_cases hpk : p.1 = k
    · simp only [insertL, if_pos hpk, NDK, List.map_cons, List.nodup_cons]
      exact ⟨hpk ▸ h.1, h.2⟩
    · simp only [insertL, if_neg hpk, NDK, List.map_cons, List.nodup_cons]
      refine ⟨?_, ih h.2⟩
      intro hmem
      rcases List.mem_map.mp hmem with ⟨q, hq, hq1⟩
      rcases mem_insertL hq with h1 | h2
      · exact hpk (by rw [← hq1, h1])
      · exact h.1 (List.mem_map.mpr ⟨q, h2, hq1⟩)

theorem ndk_eraseL (l : List (α × β)) (k : α) (h : NDK l) : NDK (eraseL l k) := by
  refine List.Nodup.sublist ?_ h
  exact List.Sublist.map Prod.fst (List.filter_sublist l)

theorem lookupL_eq_some_of_mem {l : List (α × β)} {k : α} {v : β}
    (h : NDK l) (hm : (k, v) ∈ l) : lookupL l k = some v := by
  induction l with
  | nil => simp at hm
  | cons p rest ih =>
    simp only [NDK, List.map_cons, List.nodup_cons] at h
    rcases List.mem_cons.mp hm with h1 | h2
    · simp [lookupL, ← h1]
    · have hpk : ¬ p.1 = k := by
        intro hh
        exact h.1 (List.mem_map.mpr ⟨(k, v), h2, Eq.symm hh⟩)
      simp only [lookupL, if_neg hpk]
      exact ih h.2 h2

theorem mem_of_lookupL_eq_some {l : List (α × β)} {k : α} {v : β}
    (h : lookupL l k = some v) : (k, v) ∈ l := by
  induction l with
  | nil => simp [lookupL] at h
  | cons p rest ih =>
    simp only [lookupL] at h
    by_cases hpk : p.1 = k
    · simp only [if_pos hpk] at h
      have hv : p.2 = v := Option.some.inj h
      have hkv : (k, v) = p := by
        rw [← hpk, ← hv]
      exact List.mem_cons.mpr (Or.inl hkv)
    · simp only [if_neg hpk] at h
      exact List.mem_cons.mpr (Or.inr (ih h))

theorem lookupL_filter_value {l : List (α × β)} (q : β → Bool) (x : α) (h : NDK l) :
    lookupL (l.filter (fun p => q p.2)) x =
      match lookupL l x with
      | some v => if q v then some v else none
      | none => none := by
  induction l with
  | nil => simp [lookupL]
  | cons p rest ih =>
    simp only [NDK, List.map_cons, List.nodup_cons] at h
    simp only [List.filter_cons]
    by_cases hpx : p.1 = x
    · subst hpx
      by_cases hq : q p.2
      · simp [hq, lookupL]
      · have hrest : lookupL rest p.1 = none := lookupL_none_of_not_mem_keys h.1
        simp only [hq, Bool.false_eq_true, if_false, lookupL, if_pos rfl]
        rw [ih h.2, hrest]
        simp [hq]
    · by_cases hq : q p.2
      · simp only [hq, if_true, lookupL, if_neg hpx]
        exact ih h.2
      · simp only [hq, Bool.false_eq_true, if_false, lookupL, if_neg hpx]
        exact ih h.2

end DictLemmas

/-! ### Effect lemmas for the private helpers -/

theorem ensure_wallets (s : WalletService) (u : String) :
    (_ensure_wallet_exists s u).wallets =
      if (lookupL s.wallets u).isSome then s.wallets else insertL s.wallets u [] := by
  unfold _ensure_wallet_exists
  dsimp only
  split <;> split <;> rfl

theorem ensure_transactions (s : WalletService) (u : String) :
    (_ensure_wallet_exists s u).transactions =
      if (lookupL s.transactions u).isSome then s.transactions
      else insertL s.transactions u [] := by
  unfold _ensure_wallet_exists
  dsimp only
  split <;> split <;> rfl

theorem ensure_fx (s : WalletService) (u : String) :
    (_ensure_wallet_exists s u).fx_rates = s.fx_rates := by
  unfold _ensure_wallet_exists
  dsimp only
  split <;> split <;> rfl

theorem ensure_counter (s : WalletService) (u : String) :
    (_ensure_wallet_exists s u).transaction_counter = s.transaction_counter := by
  unfold _ensure_wallet_exists
  dsimp only
  split <;> split <;> rfl

theorem ensure_wdict (s : WalletService) (u u' : String) :
    wdict (_ensure_wallet_exists s u) u' = wdict s u' := by
  rw [wdict, ensure_wallets, wdict]
  split
  · rfl
  case isFalse h =>
    rw [lookupL_insertL]
    by_cases huu : u = u'
    · subst huu
      rw [if_pos rfl]
      rw [Option.not_isSome_iff_eq_none] at h
      rw [h]
      rfl
    · rw [if_neg huu]

theorem ensure_logOf (s : WalletService) (u u' : String) :
    logOf (_ensure_wallet_exists s u) u' = logOf s u' := by
  rw [logOf, ensure_transactions, logOf]
  split
  · rfl
  case isFalse h =>
    rw [lookupL_insertL]
    by_cases huu : u = u'
    · subst huu
      rw [if_pos rfl]
      rw [Option.not_isSome_iff_eq_none] at h
      rw [h]
      rfl
    · rw [if_neg huu]

theorem ensure_wlookup (s : WalletService) (u u' c : String) :
    wlookup (_ensure_wallet_exists s u) u' c = wlookup s u' c := by
  rw [wlookup, ensure_wdict, wlookup]

theorem ensure_curDec (s : WalletService) (u u' c : String) :
    curDec (_ensure_wallet_exists s u) u' c = curDec s u' c := by
  rw [curDec, ensure_wlookup, curDec]

theorem set_balance_wdict (s : WalletService) (u c : String) (a : Dec) (u' : String) :
    wdict (_set_balance s u c a) u' =
      if u = u' then
        (if a.quantize2.eqv Dec.zero then eraseL (wdict s u) c
         else insertL (wdict s u) c a.quantize2)
      else wdict s u' := by
  unfold _set_balance _round_amount
  dsimp only
  split
  all_goals
    show ((lookupL (insertL (_ensure_wallet_exists s u).wallets u _) u').getD []) = _
  all_goals rw [lookupL_insertL]
  all_goals by_cases huu : u = u'
  · simp only [if_pos huu, Option.getD_some, ensure_wdict]
  · simp only [if_neg huu]
    exact ensure_wdict s u u'
  · simp only [if_pos huu, Option.getD_some, ensure_wdict]
  · simp only [if_neg huu]
    exact ensure_wdict s u u'

theorem set_balance_wlookup (s : WalletService) (u c : String) (a : Dec) (u' c' : String) :
    wlookup (_set_balance s u c a) u' c' =
      if u = u' ∧ c = c' then
        (if a.quantize2.eqv Dec.zero then none else some a.quantize2)
      else wlookup s u' c' := by
  rw [wlookup, set_balance_wdict]
  by_cases huu : u = u'
  · by_cases hcc : c = c'
    · by_cases hz : a.quantize2.eqv Dec.zero
      · rw [if_pos huu, if_pos hz, if_pos (And.intro huu hcc), if_pos hz,
          lookupL_eraseL, if_pos hcc]
      · rw [if_pos huu, if_neg hz, if_pos (And.intro huu hcc), if_neg hz,
          lookupL_insertL, if_pos hcc]
    · have hand : ¬ (u = u' ∧ c = c') := fun hh => hcc hh.2
      by_cases hz : a.quantize2.eqv Dec.zero
      · rw [if_pos huu, if_pos hz, if_neg hand, lookupL_eraseL, if_neg hcc, wlookup, huu]
      · rw [if_pos huu, if_neg hz, if_neg hand, lookupL_insertL, if_neg hcc, wlookup, huu]
  · have hand : ¬ (u = u' ∧ c = c') := fun hh => huu hh.1
    rw [if_neg huu, if_neg hand, wlookup]

theorem set_balance_logOf (s : WalletService) (u c : String) (a : Dec) (u' : String) :
    logOf (_set_balance s u c a) u' = logOf s u' := by
  unfold _set_balance _round_amount
  dsimp only
  have hrec : ∀ t : WalletService, ∀ w, logOf { t with wallets := w } u' = logOf t u' :=
    fun t w => rfl
  split
  · rw [hrec]
    exact ensure_logOf s u u'
  · rw [hrec]
    exact ensure_logOf s u u'

theorem set_balance_fx (s : WalletService) (u c : String) (a : Dec) :
    (_set_balance s u c a).fx_rates = s.fx_rates := by
  unfold _set_balance
  dsimp only
  split <;> exact ensure_fx s u

theorem set_balance_counter (s : WalletService) (u c : String) (a : Dec) :
    (_set_balance s u c a).transaction_counter = s.transaction_counter := by
  unfold _set_balance
  dsimp only
  split <;> exact ensure_counter s u


theorem add_transaction_logOf (s : WalletService) (u : String) (t : Transaction)
    (u' : String) :
    logOf (_add_transaction s u t) u' =
      if u = u' then logOf s u ++ [t] else logOf s u' := by
  unfold _add_transaction
  show ((lookupL (insertL (_ensure_wallet_exists s u).transactions u
      (logOf (_ensure_wallet_exists s u) u ++ [t])) u').getD []) = _
  rw [lookupL_insertL, ensure_logOf]
  by_cases huu : u = u'
  · simp only [if_pos huu, Option.getD_some]
  · simp only [if_neg huu]
    exact ensure_logOf s u u'

theorem add_transaction_wdict (s : WalletService) (u : String) (t : Transaction)
    (u' : String) :
    wdict (_add_transaction s u t) u' = wdict s u' := by
  unfold _add_transaction
  show wdict { _ensure_wallet_exists s u with transactions := _ } u' = _
  rw [show ∀ tt : WalletService, ∀ x, wdict { tt with transactions := x } u' = wdict tt u'
      from fun tt x => rfl]
  exact ensure_wdict s u u'

theorem add_transaction_wlookup (s : WalletService) (u : String) (t : Transaction)
    (u' c' : String) :
    wlookup (_add_transaction s u t) u' c' = wlookup s u' c' := by
  rw [wlookup, add_transaction_wdict, wlookup]

theorem add_transaction_fx (s : WalletService) (u : String) (t : Transaction) :
    (_add_transaction s u t).fx_rates = s.fx_rates := by
  unfold _add_transaction
  exact ensure_fx s u

theorem add_transaction_counter (s : WalletService) (u : String) (t : Transaction) :
    (_add_transaction s u t).transaction_counter = s.transaction_counter := by
  unfold _add_transaction
  exact ensure_counter s u

theorem wlookup_with_counter (s : WalletService) (n : Nat) (u c : String) :
    wlookup { s with transaction_counter := n } u c = wlookup s u c := rfl

theorem logOf_with_counter (s : WalletService) (n : Nat) (u : String) :
    logOf { s with transaction_counter := n } u = logOf s u := rfl

theorem curDec_eq_wlookup (s : WalletService) (u c : String) :
    curDec s u c = (wlookup s u c).getD Dec.zero := rfl

theorem ensure_wallets_isSome (s : WalletService) (u : String) :
    (lookupL (_ensure_wallet_exists s u).wallets u).isSome := by
  rw [ensure_wallets]
  split
  case isTrue h => exact h
  case isFalse h =>
    rw [lookupL_insertL, if_pos rfl]
    rfl

theorem ensure_transactions_isSome (s : WalletService) (u : String) :
    (lookupL (_ensure_wallet_exists s u).transactions u).isSome := by
  rw [ensure_transactions]
  split
  case isTrue h => exact h
  case isFalse h =>
    rw [lookupL_insertL, if_pos rfl]
    rfl

theorem ensure_eq_self (s : WalletService) (u : String)
    (hw : (lookupL s.wallets u).isSome) (ht : (lookupL s.transactions u).isSome) :
    _ensure_wallet_exists s u = s := by
  unfold _ensure_wallet_exists
  dsimp only
  rw [if_pos hw, if_pos ht]

theorem ensure_ensure (s : WalletService) (u : String) :
    _ensure_wallet_exists (_ensure_wallet_exists s u) u = _ensure_wallet_exists s u :=
  ensure_eq_self _ u (ensure_wallets_isSome s u) (ensure_transactions_isSome s u)

theorem set_balance_wallets_isSome (s : WalletService) (u c : String) (a : Dec) :
    (lookupL (_set_balance s u c a).wallets u).isSome := by
  unfold _set_balance _round_amount
  dsimp only
  split
  all_goals
    show (lookupL (insertL (_ensure_wallet_exists s u).wallets u _) u).isSome = true
  all_goals rw [lookupL_insertL, if_pos rfl]
  all_goals rfl

theorem set_balance_transactions (s : WalletService) (u c : String) (a : Dec) :
    (_set_balance s u c a).transactions = (_ensure_wallet_exists s u).transactions := by
  unfold _set_balance _round_amount
  dsimp only
  split <;> rfl

/-! ### Effect equations for the public operations -/

theorem fund_wallet_err (s : WalletService) (u c : String) (a : Dec)
    (h : a ≤ Dec.zero) : fund_wallet s u c a = (.error .InvalidAmount, s) := by
  unfold fund_wallet
  rw [if_pos h]

theorem fund_wallet_eq (s : WalletService) (u c : String) (a : Dec)
    (h : ¬ a ≤ Dec.zero) :
    fund_wallet s u c a =
      (let s₁ := _ensure_wallet_exists s u
       let nb := (curDec s u c).add a
       let s₂ := _set_balance s₁ u c nb
       (.ok { new_balance := nb },
        _add_transaction { s₂ with transaction_counter := s₂.transaction_counter + 1 } u
          { id := txId (s₂.transaction_counter + 1), user_id := u, type := .FUND,
            currency := c, amount := a })) := by
  unfold fund_wallet _get_balance _generate_transaction_id
  rw [if_neg h]
  dsimp only
  rw [ensure_curDec]

theorem fund_ok_fst (s : WalletService) (u c : String) (a : Dec)
    (h : ¬ a ≤ Dec.zero) :
    (fund_wallet s u c a).1 = .ok { new_balance := (curDec s u c).add a } := by
  rw [fund_wallet_eq s u c a h]

theorem fund_ok_wlookup (s : WalletService) (u c : String) (a : Dec)
    (h : ¬ a ≤ Dec.zero) (u' c' : String) :
    wlookup (fund_wallet s u c a).2 u' c' =
      if u = u' ∧ c = c' then
        (if ((curDec s u c).add a).quantize2.eqv Dec.zero then none
         else some ((curDec s u c).add a).quantize2)
      else wlookup s u' c' := by
  rw [fund_wallet_eq s u c a h]
  dsimp only
  rw [add_transaction_wlookup, wlookup_with_counter, set_balance_wlookup, ensure_wlookup]

theorem fund_ok_logOf (s : WalletService) (u c : String) (a : Dec)
    (h : ¬ a ≤ Dec.zero) (u' : String) :
    logOf (fund_wallet s u c a).2 u' =
      if u = u' then
        logOf s u ++
          [{ id := txId (s.transaction_counter + 1), user_id := u,
             type := .FUND, currency := c, amount := a }]
      else logOf s u' := by
  rw [fund_wallet_eq s u c a h]
  dsimp only
  simp only [add_transaction_logOf, logOf_with_counter, set_balance_logOf, ensure_logOf,
    set_balance_counter, ensure_counter]

theorem fund_ok_counter (s : WalletService) (u c : String) (a : Dec)
    (h : ¬ a ≤ Dec.zero) :
    (fund_wallet s u c a).2.transaction_counter = s.transaction_counter + 1 := by
  rw [fund_wallet_eq s u c a h]
  dsimp only
  rw [add_transaction_counter]
  show (_set_balance (_ensure_wallet_exists s u) u c
    ((curDec s u c).add a)).transaction_counter + 1 = _
  rw [set_balance_counter, ensure_counter]

theorem fund_ok_fx (s : WalletService) (u c : String) (a : Dec)
    (h : ¬ a ≤ Dec.zero) :
    (fund_wallet s u c a).2.fx_rates = s.fx_rates := by
  rw [fund_wallet_eq s u c a h]
  dsimp only
  rw [add_transaction_fx]
  show (_set_balance (_ensure_wallet_exists s u) u c ((curDec s u c).add a)).fx_rates = _
  rw [set_balance_fx, ensure_fx]

theorem withdraw_err_invalid (s : WalletService) (u c : String) (a : Dec)
    (h : a ≤ Dec.zero) : withdraw_funds s u c a = (.error .InvalidAmount, s) := by
  unfold withdraw_funds
  rw [if_pos h]

theorem withdraw_err_insufficient (s : WalletService) (u c : String) (a : Dec)
    (h : ¬ a ≤ Dec.zero) (hib : curDec s u c < a) :
    withdraw_funds s u c a =
      (.error (.InsufficientBalance (curDec s u c) c), _ensure_wallet_exists s u) := by
  unfold withdraw_funds _get_balance
  rw [if_neg h]
  dsimp only
  rw [ensure_curDec]
  rw [if_pos hib]

theorem withdraw_ok_eq (s : WalletService) (u c : String) (a : Dec)
    (h : ¬ a ≤ Dec.zero) (hib : ¬ curDec s u c < a) :
    withdraw_funds s u c a =
      (let s₁ := _ensure_wallet_exists s u
       let nb := (curDec s u c).sub a
       let s₂ := _set_balance s₁ u c nb
       (.ok { new_balance := nb },
        _add_transaction { s₂ with transaction_counter := s₂.transaction_counter + 1 } u
          { id := txId (s₂.transaction_counter + 1), user_id := u, type := .WITHDRAW,
            currency := c, amount := a })) := by
  unfold withdraw_funds _get_balance _generate_transaction_id
  rw [if_neg h]
  dsimp only
  rw [ensure_curDec]
  rw [if_neg hib]

theorem withdraw_ok_fst (s : WalletService) (u c : String) (a : Dec)
    (h : ¬ a ≤ Dec.zero) (hib : ¬ curDec s u c < a) :
    (withdraw_funds s u c a).1 = .ok { new_balance := (curDec s u c).sub a } := by
  rw [withdraw_ok_eq s u c a h hib]

theorem withdraw_ok_wlookup (s : WalletService) (u c : String) (a : Dec)
    (h : ¬ a ≤ Dec.zero) (hib : ¬ curDec s u c < a) (u' c' : String) :
    wlookup (withdraw_funds s u c a).2 u' c' =
      if u = u' ∧ c = c' then
        (if ((curDec s u c).sub a).quantize2.eqv Dec.zero then none
         else some ((curDec s u c).sub a).quantize2)
      else wlookup s u' c' := by
  rw [withdraw_ok_eq s u c a h hib]
  dsimp only
  rw [add_transaction_wlookup, wlookup_with_counter, set_balance_wlookup, ensure_wlookup]

theorem withdraw_ok_logOf (s : WalletService) (u c : String) (a : Dec)
    (h : ¬ a ≤ Dec.zero) (hib : ¬ curDec s u c < a) (u' : String) :
    logOf (withdraw_funds s u c a).2 u' =
      if u = u' then
        logOf s u ++
          [{ id := txId (s.transaction_counter + 1), user_id := u,
             type := .WITHDRAW, currency := c, amount := a }]
      else logOf s u' := by
  rw [withdraw_ok_eq s u c a h hib]
  dsimp only
  simp only [add_transaction_logOf, logOf_with_counter, set_balance_logOf, ensure_logOf,
    set_balance_counter, ensure_counter]

theorem withdraw_ok_counter (s : WalletService) (u c : String) (a : Dec)
    (h : ¬ a ≤ Dec.zero) (hib : ¬ curDec s u c < a) :
    (withdraw_funds s u c a).2.transaction_counter = s.transaction_counter + 1 := by
  rw [withdraw_ok_eq s u c a h hib]
  dsimp only
  rw [add_transaction_counter]
  show (_set_balance (_ensure_wallet_exists s u) u c
    ((curDec s u c).sub a)).transaction_counter + 1 = _
  rw [set_balance_counter, ensure_counter]

theorem withdraw_ok_fx (s : WalletService) (u c : String) (a : Dec)
    (h : ¬ a ≤ Dec.zero) (hib : ¬ curDec s u c < a) :
    (withdraw_funds s u c a).2.fx_rates = s.fx_rates := by
  rw [withdraw_ok_eq s u c a h hib]
  dsimp only
  rw [add_transaction_fx]
  show (_set_balance (_ensure_wallet_exists s u) u c ((curDec s u c).sub a)).fx_rates = _
  rw [set_balance_fx, ensure_fx]

theorem convert_err_invalid (s : WalletService) (u f t : String) (a : Dec)
    (h : a ≤ Dec.zero) : convert_currency s u f t a = (.error .InvalidAmount, s) := by
  unfold convert_currency
  rw [if_pos h]

theorem convert_err_same (s : WalletService) (u f t : String) (a : Dec)
    (h : ¬ a ≤ Dec.zero) (hft : f = t) :
    convert_currency s u f t a = (.error .SameCurrency, s) := by
  unfold convert_currency
  rw [if_neg h, if_pos hft]

theorem convert_err_rate (s : WalletService) (u f t : String) (a : Dec)
    (h : ¬ a ≤ Dec.zero) (hft : ¬ f = t) (hr : lookupL s.fx_rates (f, t) = none) :
    convert_currency s u f t a = (.error (.RateUnavailable f t), s) := by
  unfold convert_currency
  rw [if_neg h, if_neg hft, hr]

theorem convert_err_insufficient (s : WalletService) (u f t : String) (a : Dec) (r : Dec)
    (h : ¬ a ≤ Dec.zero) (hft : ¬ f = t) (hr : lookupL s.fx_rates (f, t) = some r)
    (hib : curDec s u f < a) :
    convert_currency s u f t a =
      (.error (.InsufficientBalance (curDec s u f) f), _ensure_wallet_exists s u) := by
  unfold convert_currency _get_balance
  rw [if_neg h, if_neg hft, hr]
  dsimp only
  rw [ensure_curDec]
  rw [if_pos hib]

theorem convert_ok_eq (s : WalletService) (u f t : String) (a : Dec) (r : Dec)
    (h : ¬ a ≤ Dec.zero) (hft : ¬ f = t) (hr : lookupL s.fx_rates (f, t) = some r)
    (hib : ¬ curDec s u f < a) :
    convert_currency s u f t a =
      (let s₁ := _ensure_wallet_exists s u
       let conv := (a.mul r).quantize2
       let nfb := (curDec s u f).sub a
       let s₂ := _set_balance s₁ u f nfb
       let ntb := (curDec s₂ u t).add conv
       let s₃ := _set_balance s₂ u t ntb
       (.ok { converted_amount := conv, exchange_rate := r,
              from_balance := nfb, to_balance := ntb },
        _add_transaction { s₃ with transaction_counter := s₃.transaction_counter + 1 } u
          { id := txId (s₃.transaction_counter + 1), user_id := u, type := .CONVERT,
            currency := f, amount := a, from_currency := some f, to_currency := some t,
            exchange_rate := some r })) := by
  unfold convert_currency _get_balance _round_amount _generate_transaction_id
  rw [if_neg h, if_neg hft, hr]
  dsimp only
  rw [ensure_curDec, if_neg hib]
  rw [ensure_eq_self (_set_balance (_ensure_wallet_exists s u) u f ((curDec s u f).sub a)) u
    (set_balance_wallets_isSome _ u f _)
    (by rw [set_balance_transactions, ensure_ensure]
        exact ensure_transactions_isSome s u)]

theorem wdict_with_counter (s : WalletService) (n : Nat) (u : String) :
    wdict { s with transaction_counter := n } u = wdict s u := rfl

theorem fund_ok_wdict (s : WalletService) (u c : String) (a : Dec)
    (h : ¬ a ≤ Dec.zero) (u' : String) :
    wdict (fund_wallet s u c a).2 u' =
      if u = u' then
        (if ((curDec s u c).add a).quantize2.eqv Dec.zero then eraseL (wdict s u) c
         else insertL (wdict s u) c ((curDec s u c).add a).quantize2)
      else wdict s u' := by
  rw [fund_wallet_eq s u c a h]
  dsimp only
  simp only [add_transaction_wdict, wdict_with_counter, set_balance_wdict, ensure_wdict]

theorem withdraw_ok_wdict (s : WalletService) (u c : String) (a : Dec)
    (h : ¬ a ≤ Dec.zero) (hib : ¬ curDec s u c < a) (u' : String) :
    wdict (withdraw_funds s u c a).2 u' =
      if u = u' then
        (if ((curDec s u c).sub a).quantize2.eqv Dec.zero then eraseL (wdict s u) c
         else insertL (wdict s u) c ((curDec s u c).sub a).quantize2)
      else wdict s u' := by
  rw [withdraw_ok_eq s u c a h hib]
  dsimp only
  simp only [add_transaction_wdict, wdict_with_counter, set_balance_wdict, ensure_wdict]

/-- After the from-debit of a convert, the to-currency balance is still the
original one (the two currencies differ). -/
theorem convert_mid_curDec (s : WalletService) (u f t : String) (a : Dec)
    (hft : ¬ f = t) :
    curDec (_set_balance (_ensure_wallet_exists s u) u f a) u t = curDec s u t := by
  rw [curDec_eq_wlookup, set_balance_wlookup, ensure_wlookup,
    if_neg (fun hh => hft hh.2), curDec_eq_wlookup]

theorem convert_ok_fst (s : WalletService) (u f t : String) (a : Dec) (r : Dec)
    (h : ¬ a ≤ Dec.zero) (hft : ¬ f = t) (hr : lookupL s.fx_rates (f, t) = some r)
    (hib : ¬ curDec s u f < a) :
    (convert_currency s u f t a).1 =
      .ok { converted_amount := (a.mul r).quantize2, exchange_rate := r,
            from_balance := (curDec s u f).sub a,
            to_balance := (curDec s u t).add ((a.mul r).quantize2) } := by
  rw [convert_ok_eq s u f t a r h hft hr hib]
  dsimp only
  rw [convert_mid_curDec s u f t _ hft]

theorem convert_ok_wlookup (s : WalletService) (u f t : String) (a : Dec) (r : Dec)
    (h : ¬ a ≤ Dec.zero) (hft : ¬ f = t) (hr : lookupL s.fx_rates (f, t) = some r)
    (hib : ¬ curDec s u f < a) (u' c' : String) :
    wlookup (convert_currency s u f t a).2 u' c' =
      if u = u' ∧ t = c' then
        (if ((curDec s u t).add ((a.mul r).quantize2)).quantize2.eqv Dec.zero then none
         else some ((curDec s u t).add ((a.mul r).quantize2)).quantize2)
      else if u = u' ∧ f = c' then
        (if ((curDec s u f).sub a).quantize2.eqv Dec.zero then none
         else some ((curDec s u f).sub a).quantize2)
      else wlookup s u' c' := by
  rw [convert_ok_eq s u f t a r h hft hr hib]
  dsimp only
  rw [add_transaction_wlookup, wlookup_with_counter, set_balance_wlookup,
    convert_mid_curDec s u f t _ hft, set_balance_wlookup, ensure_wlookup]

theorem convert_ok_wdict (s : WalletService) (u f t : String) (a : Dec) (r : Dec)
    (h : ¬ a ≤ Dec.zero) (hft : ¬ f = t) (hr : lookupL s.fx_rates (f, t) = some r)
    (hib : ¬ curDec s u f < a) (u' : String) :
    wdict (convert_currency s u f t a).2 u' =
      if u = u' then
        (if ((curDec s u t).add ((a.mul r).quantize2)).quantize2.eqv Dec.zero
         then eraseL (if ((curDec s u f).sub a).quantize2.eqv Dec.zero
                      then eraseL (wdict s u) f
                      else insertL (wdict s u) f ((curDec s u f).sub a).quantize2) t
         else insertL (if ((curDec s u f).sub a).quantize2.eqv Dec.zero
                       then eraseL (wdict s u) f
                       else insertL (wdict s u) f ((curDec s u f).sub a).quantize2) t
                ((curDec s u t).add ((a.mul r).quantize2)).quantize2)
      else wdict s u' := by
  rw [convert_ok_eq s u f t a r h hft hr hib]
  dsimp only
  rw [add_transaction_wdict, wdict_with_counter, set_balance_wdict,
    convert_mid_curDec s u f t _ hft]
  by_cases huu : u = u'
  · rw [if_pos huu, if_pos huu, set_balance_wdict, ensure_wdict, if_pos rfl, huu]
  · rw [if_neg huu, if_neg huu, set_balance_wdict, if_neg huu, ensure_wdict]

theorem convert_ok_logOf (s : WalletService) (u f t : String) (a : Dec) (r : Dec)
    (h : ¬ a ≤ Dec.zero) (hft : ¬ f = t) (hr : lookupL s.fx_rates (f, t) = some r)
    (hib : ¬ curDec s u f < a) (u' : String) :
    logOf (convert_currency s u f t a).2 u' =
      if u = u' then
        logOf s u ++
          [{ id := txId (s.transaction_counter + 1), user_id := u,
             type := .CONVERT, currency := f, amount := a,
             from_currency := some f, to_currency := some t,
             exchange_rate := some r }]
      else logOf s u' := by
  rw [convert_ok_eq s u f t a r h hft hr hib]
  dsimp only
  simp only [add_transaction_logOf, logOf_with_counter, set_balance_logOf, ensure_logOf,
    set_balance_counter, ensure_counter]

theorem convert_ok_counter (s : WalletService) (u f t : String) (a : Dec) (r : Dec)
    (h : ¬ a ≤ Dec.zero) (hft : ¬ f = t) (hr : lookupL s.fx_rates (f, t) = some r)
    (hib : ¬ curDec s u f < a) :
    (convert_currency s u f t a).2.transaction_counter = s.transaction_counter + 1 := by
  rw [convert_ok_eq s u f t a r h hft hr hib]
  dsimp only
  rw [add_transaction_counter]
  show (_set_balance _ u t _).transaction_counter + 1 = _
  rw [set_balance_counter, set_balance_counter, ensure_counter]

theorem convert_ok_fx (s : WalletService) (u f t : String) (a : Dec) (r : Dec)
    (h : ¬ a ≤ Dec.zero) (hft : ¬ f = t) (hr : lookupL s.fx_rates (f, t) = some r)
    (hib : ¬ curDec s u f < a) :
    (convert_currency s u f t a).2.fx_rates = s.fx_rates := by
  rw [convert_ok_eq s u f t a r h hft hr hib]
  dsimp only
  rw [add_transaction_fx]
  show (_set_balance _ u t _).fx_rates = _
  rw [set_balance_fx, set_balance_fx, ensure_fx]

/-! ### The read-only operations -/

theorem get_balances_eq (s : WalletService) (u : String) :
    get_balances s u = (wdict s u, _ensure_wallet_exists s u) := by
  unfold get_balances
  dsimp only
  rw [ensure_wdict]

theorem get_transactions_eq (s : WalletService) (u : String) :
    get_transactions s u = (logOf s u, _ensure_wallet_exists s u) := by
  unfold get_transactions
  dsimp only
  rw [ensure_logOf]

/-- The calculated-balances dictionary reconcile builds from a log. -/
def calcOf (txs : List Transaction) : List (String × Dec) :=
  ((txs.foldl reconcileStep []).map
    (fun p => (p.1, _round_amount p.2 p.1))).filter (fun p => decide (Dec.zero < p.2))

theorem reconcile_eq (s : WalletService) (u : String) :
    reconcile_balances s u =
      ({ current_balances := wdict s u, calculated_balances := calcOf (logOf s u),
         balanced := dictEqvBy Dec.beqv (wdict s u) (calcOf (logOf s u)) },
       _ensure_wallet_exists s u) := by
  unfold reconcile_balances get_transactions get_balances calcOf
  dsimp only
  rw [ensure_logOf, ensure_ensure, ensure_wdict]

theorem update_fx_eq (s : WalletService) (r : List ((String × String) × Dec)) :
    update_fx_rates s r =
      { s with fx_rates := r.foldl (fun t p => insertL t p.1 p.2) s.fx_rates } := rfl

/-! ### Replay semantics of the reconcile loop -/

/-- Whether replaying transaction `t` changes the entry of currency `c`. -/
def touches (t : Transaction) (c : String) : Prop :=
  match t.type with
  | .FUND => t.currency = c
  | .WITHDRAW => t.currency = c
  | .CONVERT => t.from_currency.getD "" = c ∨ t.to_currency.getD "" = c

instance (t : Transaction) (c : String) : Decidable (touches t c) := by
  unfold touches
  split <;> infer_instance

/-- The exact rational amount replaying `t` adds to the total of currency
`c`. -/
def contrib (t : Transaction) (c : String) : ℚ :=
  match t.type with
  | .FUND => if t.currency = c then t.amount.toRat else 0
  | .WITHDRAW => if t.currency = c then -t.amount.toRat else 0
  | .CONVERT =>
    (if t.from_currency.getD "" = c then -t.amount.toRat else 0) +
    (if t.to_currency.getD "" = c then
      ((t.amount.mul (t.exchange_rate.getD Dec.zero)).quantize2).toRat else 0)

/-- The exact total replaying a log accumulates for currency `c`. -/
def replaySum (txs : List Transaction) (c : String) : ℚ :=
  txs.foldl (fun acc t => acc + contrib t c) 0

/-- The rational value of an optional stored entry (absent = 0). -/
def valQ (o : Option Dec) : ℚ := (o.getD Dec.zero).toRat

theorem foldl_contrib_shift (txs : List Transaction) (c : String) (a : ℚ) :
    txs.foldl (fun acc t => acc + contrib t c) a = a + replaySum txs c := by
  induction txs generalizing a with
  | nil => simp [replaySum]
  | cons t rest ih =>
    rw [replaySum]
    simp only [List.foldl_cons]
    rw [ih, ih]
    ring

theorem replaySum_cons (t : Transaction) (rest : List Transaction) (c : String) :
    replaySum (t :: rest) c = contrib t c + replaySum rest c := by
  rw [replaySum, List.foldl_cons, foldl_contrib_shift]
  ring

theorem replaySum_append_single (txs : List Transaction) (t : Transaction) (c : String) :
    replaySum (txs ++ [t]) c = replaySum txs c + contrib t c := by
  rw [replaySum, List.foldl_append, List.foldl_cons, List.foldl_nil, foldl_contrib_shift,
    replaySum]
  ring

theorem contrib_of_not_touches {t : Transaction} {c : String} (h : ¬ touches t c) :
    contrib t c = 0 := by
  rw [touches] at h
  rw [contrib]
  split
  case h_1 ht => rw [ht] at h; rw [if_neg h]
  case h_2 ht => rw [ht] at h; rw [if_neg h]
  case h_3 ht =>
    rw [ht] at h
    rw [if_neg (fun hh => h (Or.inl hh)), if_neg (fun hh => h (Or.inr hh))]
    norm_num

theorem replaySum_zero_of_not_touches {txs : List Transaction} {c : String}
    (h : ∀ t ∈ txs, ¬ touches t c) : replaySum txs c = 0 := by
  induction txs with
  | nil => rfl
  | cons t rest ih =>
    rw [replaySum_cons, contrib_of_not_touches (h t (List.mem_cons_self t rest)),
      ih (fun t' ht' => h t' (List.mem_cons_of_mem t ht'))]
    ring

theorem valQ_def (o : Option Dec) : valQ o = (o.getD Dec.zero).toRat := rfl

theorem valQ_lookupL_insertL (l : List (String × Dec)) (k : String) (v : Dec)
    (x : String) :
    valQ (lookupL (insertL l k v) x) = if k = x then v.toRat else valQ (lookupL l x) := by
  rw [lookupL_insertL]
  by_cases h : k = x
  · rw [if_pos h, if_pos h]
    rfl
  · rw [if_neg h, if_neg h]

/-- Replaying one transaction changes the stored total of each currency by
exactly `contrib`. -/
theorem reconcileStep_valQ (d : List (String × Dec)) (t : Transaction) (c : String) :
    valQ (lookupL (reconcileStep d t) c) = valQ (lookupL d c) + contrib t c := by
  rw [reconcileStep, contrib]
  split
  case h_1 =>
    rw [valQ_lookupL_insertL]
    by_cases hc : t.currency = c
    · rw [if_pos hc, if_pos hc, hc, Dec.toRat_add, valQ_def]
    · rw [if_neg hc, if_neg hc, add_zero]
  case h_2 =>
    rw [valQ_lookupL_insertL]
    by_cases hc : t.currency = c
    · rw [if_pos hc, if_pos hc, hc, Dec.toRat_sub, valQ_def]
      ring
    · rw [if_neg hc, if_neg hc, add_zero]
  case h_3 =>
    dsimp only
    rw [_round_amount, valQ_lookupL_insertL]
    by_cases ht : t.to_currency.getD "" = c
    · rw [if_pos ht, if_pos ht, ht, Dec.toRat_add, ← valQ_def, valQ_lookupL_insertL]
      by_cases hf : t.from_currency.getD "" = c
      · rw [if_pos hf, if_pos hf, hf, Dec.toRat_sub, valQ_def]
        ring
      · rw [if_neg hf, if_neg hf]
        ring
    · rw [if_neg ht, if_neg ht, valQ_lookupL_insertL]
      by_cases hf : t.from_currency.getD "" = c
      · rw [if_pos hf, if_pos hf, hf, Dec.toRat_sub, valQ_def]
        ring
      · rw [if_neg hf, if_neg hf]
        ring

theorem reconcileStep_none {d : List (String × Dec)} {t : Transaction} {c : String}
    (h : lookupL (reconcileStep d t) c = none) :
    lookupL d c = none ∧ ¬ touches t c := by
  rw [reconcileStep] at h
  rw [touches]
  revert h
  split
  all_goals intro h
  case h_1 =>
    rw [lookupL_insertL] at h
    by_cases hc : t.currency = c
    · rw [if_pos hc] at h; exact absurd h (by simp)
    · rw [if_neg hc] at h; exact ⟨h, hc⟩
  case h_2 =>
    rw [lookupL_insertL] at h
    by_cases hc : t.currency = c
    · rw [if_pos hc] at h; exact absurd h (by simp)
    · rw [if_neg hc] at h; exact ⟨h, hc⟩
  case h_3 =>
    rw [lookupL_insertL] at h
    by_cases ht : t.to_currency.getD "" = c
    · rw [if_pos ht] at h; exact absurd h (by simp)
    · rw [if_neg ht, lookupL_insertL] at h
      by_cases hf : t.from_currency.getD "" = c
      · rw [if_pos hf] at h; exact absurd h (by simp)
      · rw [if_neg hf] at h
        refine ⟨h, ?_⟩
        push_neg
        exact ⟨hf, ht⟩

theorem reconcileStep_ndk (d : List (String × Dec)) (t : Transaction)
    (h : NDK d) : NDK (reconcileStep d t) := by
  rw [reconcileStep]
  split
  · exact ndk_insertL _ _ _ h
  · exact ndk_insertL _ _ _ h
  · exact ndk_insertL _ _ _ (ndk_insertL _ _ _ h)

theorem foldl_reconcileStep_valQ (txs : List Transaction) (d : List (String × Dec))
    (c : String) :
    valQ (lookupL (txs.foldl reconcileStep d) c) =
      valQ (lookupL d c) + replaySum txs c := by
  induction txs generalizing d with
  | nil => simp [replaySum]
  | cons t rest ih =>
    rw [List.foldl_cons, ih, reconcileStep_valQ, replaySum_cons]
    ring

theorem foldl_reconcileStep_none {txs : List Transaction} {d : List (String × Dec)}
    {c : String} (h : lookupL (txs.foldl reconcileStep d) c = none) :
    lookupL d c = none ∧ ∀ t ∈ txs, ¬ touches t c := by
  induction txs generalizing d with
  | nil => exact ⟨h, by simp⟩
  | cons t rest ih =>
    rw [List.foldl_cons] at h
    obtain ⟨h1, h2⟩ := ih h
    obtain ⟨h3, h4⟩ := reconcileStep_none h1
    refine ⟨h3, ?_⟩
    intro t' ht'
    rcases List.mem_cons.mp ht' with rfl | hmem
    · exact h4
    · exact h2 t' hmem

theorem foldl_reconcileStep_ndk (txs : List Transaction) (d : List (String × Dec))
    (h : NDK d) : NDK (txs.foldl reconcileStep d) := by
  induction txs generalizing d with
  | nil => exact h
  | cons t rest ih => exact ih _ (reconcileStep_ndk _ _ h)

theorem centQ_contrib {t : Transaction} {c : String} (h : centQ t.amount.toRat) :
    centQ (contrib t c) := by
  rw [contrib]
  split
  · split
    · exact h
    · exact centQ_zero
  · split
    · exact centQ_neg h
    · exact centQ_zero
  · refine centQ_add ?_ ?_
    · split
      · exact centQ_neg h
      · exact centQ_zero
    · split
      · rw [Dec.toRat_quantize2]
        exact centQ_rndQ _
      · exact centQ_zero

theorem centQ_replaySum {txs : List Transaction} {c : String}
    (h : ∀ t ∈ txs, centQ t.amount.toRat) : centQ (replaySum txs c) := by
  induction txs with
  | nil => exact centQ_zero
  | cons t rest ih =>
    rw [replaySum_cons]
    refine centQ_add (centQ_contrib (h t (by simp)))
      (ih (fun t' ht' => h t' (List.mem_cons_of_mem t ht')))

theorem map_value_keys {α β γ : Type} (g : α → β → γ) (l : List (α × β)) :
    (l.map fun p => (p.1, g p.1 p.2)).map Prod.fst = l.map Prod.fst := by
  induction l with
  | nil => rfl
  | cons p rest ih => simp only [List.map_cons, ih]

theorem ndk_map_value {α β γ : Type} [DecidableEq α] (g : α → β → γ)
    (l : List (α × β)) (h : NDK l) : NDK (l.map fun p => (p.1, g p.1 p.2)) := by
  rw [NDK, map_value_keys]
  exact h

theorem lookupL_filter_some {α β : Type} [DecidableEq α] {l : List (α × β)}
    (q : α × β → Bool) (x : α) (v : β) (h : NDK l) :
    lookupL (l.filter q) x = some v ↔ lookupL l x = some v ∧ q (x, v) = true := by
  induction l with
  | nil => simp [lookupL]
  | cons p rest ih =>
    obtain ⟨pk, pv⟩ := p
    simp only [NDK, List.map_cons, List.nodup_cons] at h
    have ihr := ih h.2
    rw [List.filter_cons]
    by_cases hpx : pk = x
    · subst hpx
      by_cases hq : q (pk, pv) = true
      · rw [if_pos hq]
        simp only [lookupL, if_pos rfl]
        constructor
        · intro hv
          exact ⟨hv, by rw [← Option.some.inj hv]; exact hq⟩
        · intro hv
          exact hv.1
      · rw [if_neg hq]
        have hnone : lookupL rest pk = none := lookupL_none_of_not_mem_keys h.1
        constructor
        · intro hv
          obtain ⟨hv1, -⟩ := ihr.mp hv
          rw [hnone] at hv1
          exact absurd hv1 (by simp)
        · intro hv
          have hv2 : pv = v := by
            have hh := hv.1
            simp only [lookupL, if_pos rfl] at hh
            exact Option.some.inj hh
          rw [← hv2] at hv
          exact absurd hv.2 hq
    · by_cases hq : q (pk, pv) = true
      · rw [if_pos hq]
        simp only [lookupL, if_neg hpx]
        exact ihr
      · rw [if_neg hq]
        simp only [lookupL, if_neg hpx]
        exact ihr

theorem ndk_filter {α β : Type} [DecidableEq α] (q : α × β → Bool)
    (l : List (α × β)) (h : NDK l) : NDK (l.filter q) :=
  List.Nodup.sublist (List.Sublist.map Prod.fst (List.filter_sublist l)) h

theorem dec_zero_lt_iff {v : Dec} : Dec.zero < v ↔ 0 < v.toRat := by
  rw [Dec.lt_iff, Dec.toRat_zero]

/-- The heart of the reconciliation fixed point: if every stored entry equals
the exact replay total of its currency, every stored entry is positive, every
absent currency has replay total 0, and every logged amount is a whole number
of cents, then the stored wallet and the calculated balances compare equal
under Python `==`. -/
theorem dictEqv_wdict_calcOf (w : List (String × Dec)) (txs : List Transaction)
    (hndk : NDK w)
    (hcent : ∀ t ∈ txs, centQ t.amount.toRat)
    (hpt : ∀ c : String,
      match lookupL w c with
      | none => replaySum txs c = 0
      | some v => v.toRat = replaySum txs c ∧ 0 < v.toRat) :
    dictEqvBy Dec.beqv w (calcOf txs) = true := by
  have hndk₀ : NDK (txs.foldl reconcileStep []) := foldl_reconcileStep_ndk txs [] ndk_nil
  have hndkm : NDK ((txs.foldl reconcileStep []).map
      (fun p => (p.1, _round_amount p.2 p.1))) :=
    ndk_map_value (fun k v => _round_amount v k) _ hndk₀
  have hScent : ∀ c : String, centQ (replaySum txs c) := fun c => centQ_replaySum hcent
  have hval : ∀ c, valQ (lookupL (txs.foldl reconcileStep []) c) = replaySum txs c := by
    intro c
    rw [foldl_reconcileStep_valQ]
    show valQ none + _ = _
    rw [valQ_def, Option.getD_none, Dec.toRat_zero, zero_add]
  have hsome : ∀ c v', lookupL (calcOf txs) c = some v' ↔
      ((∃ w₀, lookupL (txs.foldl reconcileStep []) c = some w₀ ∧
        v' = _round_amount w₀ c) ∧ Dec.zero < v') := by
    intro c v'
    rw [calcOf, lookupL_filter_some _ c v' hndkm,
      lookupL_map_value (fun k v => _round_amount v k)]
    constructor
    · rintro ⟨hm, hq⟩
      cases hw : lookupL (txs.foldl reconcileStep []) c with
      | none =>
        rw [hw] at hm
        exact absurd hm (by simp)
      | some w₀ =>
        rw [hw] at hm
        simp only [Option.map_some'] at hm
        exact ⟨⟨w₀, rfl, (Option.some.inj hm).symm⟩, of_decide_eq_true hq⟩
    · rintro ⟨⟨w₀, hw, rfl⟩, hpos⟩
      rw [hw]
      simp only [Option.map_some']
      constructor
      · trivial
      · exact decide_eq_true hpos
  have hsum_of : ∀ c w₀, lookupL (txs.foldl reconcileStep []) c = some w₀ →
      (_round_amount w₀ c).toRat = replaySum txs c := by
    intro c w₀ hw
    have hw₀ : w₀.toRat = replaySum txs c := by
      have hh := hval c
      rw [hw, valQ_def, Option.getD_some] at hh
      exact hh
    rw [_round_amount, Dec.toRat_quantize2, hw₀, rndQ_of_centQ (hScent c)]
  have hcalc : ∀ c v', lookupL (calcOf txs) c = some v' →
      v'.toRat = replaySum txs c ∧ 0 < v'.toRat := by
    intro c v' hv'
    obtain ⟨⟨w₀, hw, rfl⟩, hpos⟩ := (hsome c v').mp hv'
    exact ⟨hsum_of c w₀ hw, dec_zero_lt_iff.mp hpos⟩
  have hcalc_none : ∀ c, lookupL (calcOf txs) c = none → ¬ (0 < replaySum txs c) := by
    intro c hn hpos
    cases hw : lookupL (txs.foldl reconcileStep []) c with
    | none =>
      obtain ⟨-, htouch⟩ := foldl_reconcileStep_none hw
      rw [replaySum_zero_of_not_touches htouch] at hpos
      exact lt_irrefl 0 hpos
    | some w₀ =>
      have hposd : Dec.zero < _round_amount w₀ c := by
        rw [dec_zero_lt_iff, hsum_of c w₀ hw]
        exact hpos
      have hcontra : lookupL (calcOf txs) c = some (_round_amount w₀ c) :=
        (hsome c _).mpr ⟨⟨w₀, hw, rfl⟩, hposd⟩
      rw [hn] at hcontra
      exact absurd hcontra (by simp)
  rw [dictEqvBy, Bool.and_eq_true, List.all_eq_true, List.all_eq_true]
  constructor
  · intro p hp
    have hlw : lookupL w p.1 = some p.2 := lookupL_eq_some_of_mem hndk hp
    have := hpt p.1
    rw [hlw] at this
    obtain ⟨hv, hvpos⟩ := this
    cases hc : lookupL (calcOf txs) p.1 with
    | none =>
      exact absurd (hv ▸ hvpos) (hcalc_none p.1 hc)
    | some v' =>
      obtain ⟨hv', _⟩ := hcalc p.1 v' hc
      simp only [hc]
      rw [Dec.beqv]
      refine decide_eq_true ?_
      rw [Dec.eqv_iff, hv, hv']
  · intro p hp
    have hlc : lookupL (calcOf txs) p.1 = some p.2 := by
      refine lookupL_eq_some_of_mem ?_ hp
      exact ndk_filter _ _ hndkm
    obtain ⟨hv', hpos'⟩ := hcalc p.1 p.2 hlc
    have := hpt p.1
    cases hw : lookupL w p.1 with
    | none =>
      rw [hw] at this
      rw [this] at hv'
      exact absurd (hv' ▸ hpos') (lt_irrefl 0)
    | some v =>
      rw [hw] at this
      obtain ⟨hv, _⟩ := this
      simp only []
      rw [Dec.beqv]
      refine decide_eq_true ?_
      rw [Dec.eqv_iff, hv, hv']

/-! ### Injectivity of the transaction-identifier format -/

theorem decDigitChar_toNat : ∀ d ∈ List.range 10, (decDigitChar d).toNat = 48 + d := by
  decide

theorem decode_digitsAux : ∀ fuel n : Nat, n < fuel → ∀ a : Nat,
    ((natDigitsAux fuel n).map decDigitChar).foldl (fun x c => x * 10 + (c.toNat - 48)) a =
      a * 10 ^ (natDigitsAux fuel n).length + n := by
  intro fuel
  induction fuel with
  | zero =>
    intro n hn
    omega
  | succ fuel ih =>
    intro n hn a
    by_cases h : n < 10
    · rw [natDigitsAux, if_pos h]
      have hc : (decDigitChar n).toNat = 48 + n :=
        decDigitChar_toNat n (List.mem_range.mpr h)
      simp only [List.map_cons, List.map_nil, List.foldl_cons, List.foldl_nil,
        List.length_singleton, pow_one, hc]
      omega
    · rw [natDigitsAux, if_neg h]
      have hdiv : n / 10 < fuel := by
        have := Nat.div_lt_self (show 0 < n by omega) (show 1 < 10 by omega)
        omega
      rw [List.map_append, List.foldl_append, ih (n / 10) hdiv a]
      have hc : (decDigitChar (n % 10)).toNat = 48 + n % 10 :=
        decDigitChar_toNat (n % 10) (List.mem_range.mpr (Nat.mod_lt n (by omega)))
      simp only [List.map_cons, List.map_nil, List.foldl_cons, List.foldl_nil,
        List.length_append, List.length_singleton, hc]
      have hmod : 48 + n % 10 - 48 = n % 10 := by omega
      rw [hmod]
      calc (a * 10 ^ (natDigitsAux fuel (n / 10)).length + n / 10) * 10 + n % 10
          = a * (10 ^ (natDigitsAux fuel (n / 10)).length * 10) + (10 * (n / 10) + n % 10) := by
            ring
        _ = a * 10 ^ ((natDigitsAux fuel (n / 10)).length + 1) + n := by
            rw [Nat.div_add_mod, pow_succ]

theorem decode_digits (n : Nat) : ∀ a : Nat,
    ((natDigits n).map decDigitChar).foldl (fun x c => x * 10 + (c.toNat - 48)) a =
      a * 10 ^ (natDigits n).length + n :=
  decode_digitsAux (n + 1) n (Nat.lt_succ_self n)

theorem foldl_replicate_zeros (k : Nat) :
    (List.replicate k '0').foldl (fun x c => x * 10 + (c.toNat - 48)) 0 = 0 := by
  induction k with
  | zero => rfl
  | succ k ih =>
    rw [List.replicate_succ, List.foldl_cons]
    exact ih

theorem decode_pad (n : Nat) :
    (List.replicate (6 - ((natDigits n).map decDigitChar).length) '0' ++
      (natDigits n).map decDigitChar).foldl (fun x c => x * 10 + (c.toNat - 48)) 0 = n := by
  rw [List.foldl_append, foldl_replicate_zeros, decode_digits n 0, Nat.zero_mul,
    Nat.zero_add]

theorem txId_inj : Function.Injective txId := by
  intro m n h
  have hdata : 't' :: 'x' :: '_' :: (decFormat06 m).data =
      't' :: 'x' :: '_' :: (decFormat06 n).data := congrArg String.data h
  have h1 := (List.cons.inj hdata).2
  have h2 := (List.cons.inj h1).2
  have h3 := (List.cons.inj h2).2
  have h4 : List.replicate (6 - ((natDigits m).map decDigitChar).length) '0' ++
      (natDigits m).map decDigitChar =
      List.replicate (6 - ((natDigits n).map decDigitChar).length) '0' ++
      (natDigits n).map decDigitChar := h3
  have h5 := congrArg
    (fun l : List Char => l.foldl (fun x c => x * 10 + (c.toNat - 48)) 0) h4
  simp only at h5
  rw [decode_pad, decode_pad] at h5
  exact h5

/-! ### The trace of created transactions along a run -/

def Op.user : Op → String
  | .fund u _ _ => u
  | .withdraw u _ _ => u
  | .convert u _ _ _ => u

/-- The transactions one call appended: the new suffix of its user's log. -/
def opTrace (s : WalletService) (op : Op) : List Transaction :=
  (logOf (applyOp s op).2 op.user).drop (logOf s op.user).length

/-- Run a sequence of calls collecting every created transaction, in creation
order. -/
def runTrace (s : WalletService) : List Op → WalletService × List Transaction
  | [] => (s, [])
  | op :: ops =>
    let tr := opTrace s op
    let (s', rest) := runTrace (applyOp s op).2 ops
    (s', tr ++ rest)

/-- How many of the calls succeed (state-dependent). -/
def successCount (s : WalletService) : List Op → Nat
  | [] => 0
  | op :: ops =>
    (match (applyOp s op).1 with | .ok _ => 1 | .error _ => 0) +
    successCount (applyOp s op).2 ops

/-- Every call either fails, appending nothing and leaving the counter alone,
or succeeds, appending exactly one transaction whose id is formatted from the
incremented counter. -/
theorem op_step (s : WalletService) (op : Op) :
    (opTrace s op = [] ∧ (applyOp s op).2.transaction_counter = s.transaction_counter ∧
      ∃ e, (applyOp s op).1 = .error e) ∨
    ((∃ t, opTrace s op = [t] ∧ t.id = txId (s.transaction_counter + 1)) ∧
      (applyOp s op).2.transaction_counter = s.transaction_counter + 1 ∧
      (applyOp s op).1 = .ok ()) := by
  cases op with
  | fund u c a =>
    by_cases ha : a ≤ Dec.zero
    · left
      have heq := fund_wallet_err s u c a ha
      refine ⟨?_, ?_, .InvalidAmount, ?_⟩
      · show (logOf (fund_wallet s u c a).2 u).drop (logOf s u).length = []
        rw [heq]
        exact List.drop_length _
      · show (fund_wallet s u c a).2.transaction_counter = _
        rw [heq]
      · show ((fund_wallet s u c a).1.map (fun _ => ())) = _
        rw [heq]
        rfl
    · right
      refine ⟨⟨{ id := txId (s.transaction_counter + 1), user_id := u, type := .FUND,
                 currency := c, amount := a }, ?_, rfl⟩, ?_, ?_⟩
      · show (logOf (fund_wallet s u c a).2 u).drop (logOf s u).length = _
        rw [fund_ok_logOf s u c a ha u, if_pos rfl, List.drop_left]
      · exact fund_ok_counter s u c a ha
      · show ((fund_wallet s u c a).1.map (fun _ => ())) = _
        rw [fund_ok_fst s u c a ha]
        rfl
  | withdraw u c a =>
    by_cases ha : a ≤ Dec.zero
    · left
      have heq := withdraw_err_invalid s u c a ha
      refine ⟨?_, ?_, .InvalidAmount, ?_⟩
      · show (logOf (withdraw_funds s u c a).2 u).drop (logOf s u).length = []
        rw [heq]
        exact List.drop_length _
      · show (withdraw_funds s u c a).2.transaction_counter = _
        rw [heq]
      · show ((withdraw_funds s u c a).1.map (fun _ => ())) = _
        rw [heq]
        rfl
    · by_cases hib : curDec s u c < a
      · left
        have heq := withdraw_err_insufficient s u c a ha hib
        refine ⟨?_, ?_, .InsufficientBalance (curDec s u c) c, ?_⟩
        · show (logOf (withdraw_funds s u c a).2 u).drop (logOf s u).length = []
          rw [heq]
          show (logOf (_ensure_wallet_exists s u) u).drop (logOf s u).length = []
          rw [ensure_logOf]
          exact List.drop_length _
        · show (withdraw_funds s u c a).2.transaction_counter = _
          rw [heq]
          exact ensure_counter s u
        · show ((withdraw_funds s u c a).1.map (fun _ => ())) = _
          rw [heq]
          rfl
      · right
        refine ⟨⟨{ id := txId (s.transaction_counter + 1), user_id := u,
                   type := .WITHDRAW, currency := c, amount := a }, ?_, rfl⟩, ?_, ?_⟩
        · show (logOf (withdraw_funds s u c a).2 u).drop (logOf s u).length = _
          rw [withdraw_ok_logOf s u c a ha hib u, if_pos rfl, List.drop_left]
        · exact withdraw_ok_counter s u c a ha hib
        · show ((withdraw_funds s u c a).1.map (fun _ => ())) = _
          rw [withdraw_ok_fst s u c a ha hib]
          rfl
  | convert u f t a =>
    by_cases ha : a ≤ Dec.zero
    · left
      have heq := convert_err_invalid s u f t a ha
      refine ⟨?_, ?_, .InvalidAmount, ?_⟩
      · show (logOf (convert_currency s u f t a).2 u).drop (logOf s u).length = []
        rw [heq]
        exact List.drop_length _
      · show (convert_currency s u f t a).2.transaction_counter = _
        rw [heq]
      · show ((convert_currency s u f t a).1.map (fun _ => ())) = _
        rw [heq]
        rfl
    · by_cases hft : f = t
      · left
        have heq := convert_err_same s u f t a ha hft
        refine ⟨?_, ?_, .SameCurrency, ?_⟩
        · show (logOf (convert_currency s u f t a).2 u).drop (logOf s u).length = []
          rw [heq]
          exact List.drop_length _
        · show (convert_currency s u f t a).2.transaction_counter = _
          rw [heq]
        · show ((convert_currency s u f t a).1.map (fun _ => ())) = _
          rw [heq]
          rfl
      · cases hr : lookupL s.fx_rates (f, t) with
        | none =>
          left
          have heq := convert_err_rate s u f t a ha hft hr
          refine ⟨?_, ?_, .RateUnavailable f t, ?_⟩
          · show (logOf (convert_currency s u f t a).2 u).drop (logOf s u).length = []
            rw [heq]
            exact List.drop_length _
          · show (convert_currency s u f t a).2.transaction_counter = _
            rw [heq]
          · show ((convert_currency s u f t a).1.map (fun _ => ())) = _
            rw [heq]
            rfl
        | some r =>
          by_cases hib : curDec s u f < a
          · left
            have heq := convert_err_insufficient s u f t a r ha hft hr hib
            refine ⟨?_, ?_, .InsufficientBalance (curDec s u f) f, ?_⟩
            · show (logOf (convert_currency s u f t a).2 u).drop (logOf s u).length = []
              rw [heq]
              show (logOf (_ensure_wallet_exists s u) u).drop (logOf s u).length = []
              rw [ensure_logOf]
              exact List.drop_length _
            · show (convert_currency s u f t a).2.transaction_counter = _
              rw [heq]
              exact ensure_counter s u
            · show ((convert_currency s u f t a).1.map (fun _ => ())) = _
              rw [heq]
              rfl
          · right
            refine ⟨⟨{ id := txId (s.transaction_counter + 1), user_id := u,
                       type := .CONVERT, currency := f, amount := a,
                       from_currency := some f, to_currency := some t,
                       exchange_rate := some r }, ?_, rfl⟩, ?_, ?_⟩
            · show (logOf (convert_currency s u f t a).2 u).drop (logOf s u).length = _
              rw [convert_ok_logOf s u f t a r ha hft hr hib u, if_pos rfl, List.drop_left]
            · exact convert_ok_counter s u f t a r ha hft hr hib
            · show ((convert_currency s u f t a).1.map (fun _ => ())) = _
              rw [convert_ok_fst s u f t a r ha hft hr hib]
              rfl

theorem runTrace_spec (ops : List Op) : ∀ s : WalletService,
    (runTrace s ops).2.map Transaction.id =
      (List.range (successCount s ops)).map
        (fun i => txId (s.transaction_counter + i + 1)) ∧
    (runTrace s ops).1.transaction_counter =
      s.transaction_counter + successCount s ops := by
  induction ops with
  | nil =>
    intro s
    exact ⟨rfl, rfl⟩
  | cons op ops ih =>
    intro s
    have hrec := ih (applyOp s op).2
    rcases op_step s op with ⟨htr, hcnt, e, herr⟩ | ⟨⟨t, htr, hid⟩, hcnt, hok⟩
    · have hsc : successCount s (op :: ops) = successCount (applyOp s op).2 ops := by
        rw [successCount, herr]
        show 0 + successCount (applyOp s op).2 ops = successCount (applyOp s op).2 ops
        omega
      constructor
      · show (opTrace s op ++ (runTrace (applyOp s op).2 ops).2).map Transaction.id = _
        rw [htr, List.nil_append, hrec.1, hcnt, hsc]
      · show (runTrace (applyOp s op).2 ops).1.transaction_counter = _
        rw [hrec.2, hcnt, hsc]
    · have hsc : successCount s (op :: ops) = 1 + successCount (applyOp s op).2 ops := by
        rw [successCount, hok]
      constructor
      · show (opTrace s op ++ (runTrace (applyOp s op).2 ops).2).map Transaction.id = _
        rw [htr, hsc, List.map_append, hrec.1, hcnt]
        show [t.id] ++ _ = _
        rw [hid, Nat.add_comm 1 (successCount (applyOp s op).2 ops),
          List.range_succ_eq_map, List.map_cons, List.map_map, List.singleton_append,
          Nat.add_zero]
        congr 1
        refine List.map_congr_left ?_
        intro i _
        show txId (s.transaction_counter + 1 + i + 1) =
          txId (s.transaction_counter + (i + 1) + 1)
        exact congrArg txId (by omega)
      · show (runTrace (applyOp s op).2 ops).1.transaction_counter = _
        rw [hrec.2, hcnt, hsc]
        omega

/-! ### Positivity invariant of stored balances -/

/-- Every stored balance entry is strictly positive. -/
def PosBal (s : WalletService) : Prop :=
  ∀ u c v, wlookup s u c = some v → Dec.zero < v

/-- Every rate in the table is strictly positive. -/
def PosRates (s : WalletService) : Prop :=
  ∀ k r, lookupL s.fx_rates k = some r → Dec.zero < r

theorem curDec_nonneg {s : WalletService} {u c : String} (h : PosBal s) :
    0 ≤ (curDec s u c).toRat := by
  rw [curDec_eq_wlookup]
  cases hw : wlookup s u c with
  | none =>
    show (0 : ℚ) ≤ Dec.zero.toRat
    rw [Dec.toRat_zero]
  | some v =>
    have hp := h u c v hw
    rw [dec_zero_lt_iff] at hp
    exact le_of_lt hp

theorem pos_amount_iff {a : Dec} : ¬ a ≤ Dec.zero ↔ 0 < a.toRat := by
  rw [Dec.le_iff, Dec.toRat_zero, not_le]

theorem not_lt_iff {a b : Dec} : ¬ a < b ↔ b.toRat ≤ a.toRat := by
  rw [Dec.lt_iff, not_lt]

/-- What `_set_balance` actually stores is strictly positive: it is the
rounding of a non-negative amount, and an exact zero is removed instead. -/
theorem stored_pos {x : Dec} (hx : 0 ≤ x.toRat) (hz : ¬ x.quantize2.eqv Dec.zero) :
    Dec.zero < x.quantize2 := by
  rw [dec_zero_lt_iff, Dec.toRat_quantize2]
  rw [Dec.eqv_zero_iff, Dec.toRat_quantize2] at hz
  exact lt_of_le_of_ne (rndQ_nonneg hx) (Ne.symm hz)

theorem inv1_step (s : WalletService) (op : Op) (h1 : PosBal s) (h2 : PosRates s) :
    PosBal (applyOp s op).2 ∧ PosRates (applyOp s op).2 := by
  cases op with
  | fund u c a =>
    by_cases ha : a ≤ Dec.zero
    · show PosBal (fund_wallet s u c a).2 ∧ PosRates (fund_wallet s u c a).2
      rw [fund_wallet_err s u c a ha]
      exact ⟨h1, h2⟩
    · constructor
      · intro u' c' v hv
        rw [show (applyOp s (.fund u c a)).2 = (fund_wallet s u c a).2 from rfl,
          fund_ok_wlookup s u c a ha] at hv
        by_cases hcase : u = u' ∧ c = c'
        · rw [if_pos hcase] at hv
          by_cases hz : ((curDec s u c).add a).quantize2.eqv Dec.zero
          · rw [if_pos hz] at hv
            exact absurd hv (by simp)
          · rw [if_neg hz] at hv
            rw [← Option.some.inj hv]
            refine stored_pos ?_ hz
            rw [Dec.toRat_add]
            exact add_nonneg (curDec_nonneg h1) (le_of_lt (pos_amount_iff.mp ha))
        · rw [if_neg hcase] at hv
          exact h1 u' c' v hv
      · intro k r hr
        rw [show (applyOp s (.fund u c a)).2 = (fund_wallet s u c a).2 from rfl,
          fund_ok_fx s u c a ha] at hr
        exact h2 k r hr
  | withdraw u c a =>
    by_cases ha : a ≤ Dec.zero
    · show PosBal (withdraw_funds s u c a).2 ∧ PosRates (withdraw_funds s u c a).2
      rw [withdraw_err_invalid s u c a ha]
      exact ⟨h1, h2⟩
    · by_cases hib : curDec s u c < a
      · show PosBal (withdraw_funds s u c a).2 ∧ PosRates (withdraw_funds s u c a).2
        rw [withdraw_err_insufficient s u c a ha hib]
        constructor
        · intro u' c' v hv
          rw [ensure_wlookup] at hv
          exact h1 u' c' v hv
        · intro k r hr
          rw [ensure_fx] at hr
          exact h2 k r hr
      · constructor
        · intro u' c' v hv
          rw [show (applyOp s (.withdraw u c a)).2 = (withdraw_funds s u c a).2 from rfl,
            withdraw_ok_wlookup s u c a ha hib] at hv
          by_cases hcase : u = u' ∧ c = c'
          · rw [if_pos hcase] at hv
            by_cases hz : ((curDec s u c).sub a).quantize2.eqv Dec.zero
            · rw [if_pos hz] at hv
              exact absurd hv (by simp)
            · rw [if_neg hz] at hv
              rw [← Option.some.inj hv]
              refine stored_pos ?_ hz
              rw [Dec.toRat_sub]
              exact sub_nonneg.mpr (not_lt_iff.mp hib)
          · rw [if_neg hcase] at hv
            exact h1 u' c' v hv
        · intro k r hr
          rw [show (applyOp s (.withdraw u c a)).2 = (withdraw_funds s u c a).2 from rfl,
            withdraw_ok_fx s u c a ha hib] at hr
          exact h2 k r hr
  | convert u f t a =>
    by_cases ha : a ≤ Dec.zero
    · show PosBal (convert_currency s u f t a).2 ∧ PosRates (convert_currency s u f t a).2
      rw [convert_err_invalid s u f t a ha]
      exact ⟨h1, h2⟩
    · by_cases hft : f = t
      · show PosBal (convert_currency s u f t a).2 ∧ PosRates (convert_currency s u f t a).2
        rw [convert_err_same s u f t a ha hft]
        exact ⟨h1, h2⟩
      · cases hr : lookupL s.fx_rates (f, t) with
        | none =>
          show PosBal (convert_currency s u f t a).2 ∧
            PosRates (convert_currency s u f t a).2
          rw [convert_err_rate s u f t a ha hft hr]
          exact ⟨h1, h2⟩
        | some r =>
          by_cases hib : curDec s u f < a
          · show PosBal (convert_currency s u f t a).2 ∧
              PosRates (convert_currency s u f t a).2
            rw [convert_err_insufficient s u f t a r ha hft hr hib]
            constructor
            · intro u' c' v hv
              rw [ensure_wlookup] at hv
              exact h1 u' c' v hv
            · intro k r' hr'
              rw [ensure_fx] at hr'
              exact h2 k r' hr'
          · have hrpos : 0 < r.toRat := by
              have := h2 (f, t) r hr
              rwa [dec_zero_lt_iff] at this
            have hconv : 0 ≤ ((a.mul r).quantize2).toRat := by
              rw [Dec.toRat_quantize2]
              refine rndQ_nonneg ?_
              rw [Dec.toRat_mul]
              have hp := pos_amount_iff.mp ha
              positivity
            constructor
            · intro u' c' v hv
              rw [show (applyOp s (.convert u f t a)).2 = (convert_currency s u f t a).2
                from rfl, convert_ok_wlookup s u f t a r ha hft hr hib] at hv
              by_cases hcaset : u = u' ∧ t = c'
              · rw [if_pos hcaset] at hv
                by_cases hz :
                    ((curDec s u t).add ((a.mul r).quantize2)).quantize2.eqv Dec.zero
                · rw [if_pos hz] at hv
                  exact absurd hv (by simp)
                · rw [if_neg hz] at hv
                  rw [← Option.some.inj hv]
                  refine stored_pos ?_ hz
                  rw [Dec.toRat_add]
                  exact add_nonneg (curDec_nonneg h1) hconv
              · rw [if_neg hcaset] at hv
                by_cases hcasef : u = u' ∧ f = c'
                · rw [if_pos hcasef] at hv
                  by_cases hz : ((curDec s u f).sub a).quantize2.eqv Dec.zero
                  · rw [if_pos hz] at hv
                    exact absurd hv (by simp)
                  · rw [if_neg hz] at hv
                    rw [← Option.some.inj hv]
                    refine stored_pos ?_ hz
                    rw [Dec.toRat_sub]
                    exact sub_nonneg.mpr (not_lt_iff.mp hib)
                · rw [if_neg hcasef] at hv
                  exact h1 u' c' v hv
            · intro k r' hr'
              rw [show (applyOp s (.convert u f t a)).2 = (convert_currency s u f t a).2
                from rfl, convert_ok_fx s u f t a r ha hft hr hib] at hr'
              exact h2 k r' hr'

theorem inv1_run (ops : List Op) : ∀ s : WalletService, PosBal s → PosRates s →
    PosBal (runOps s ops) ∧ PosRates (runOps s ops) := by
  induction ops with
  | nil => exact fun s h1 h2 => ⟨h1, h2⟩
  | cons op ops ih =>
    intro s h1 h2
    obtain ⟨h1', h2'⟩ := inv1_step s op h1 h2
    exact ih (applyOp s op).2 h1' h2'

theorem init_posBal : PosBal WalletService.init := by
  intro u c v hv
  exact absurd hv (by simp [wlookup, wdict, WalletService.init, lookupL])

theorem init_posRates : PosRates WalletService.init := by
  intro k r hr
  simp only [WalletService.init, lookupL] at hr
  by_cases h1 : (("USD", "MXN") : String × String) = k
  · rw [if_pos h1] at hr
    rw [← Option.some.inj hr]
    decide
  · rw [if_neg h1] at hr
    by_cases h2 : (("MXN", "USD") : String × String) = k
    · rw [if_pos h2] at hr
      rw [← Option.some.inj hr]
      decide
    · rw [if_neg h2] at hr
      exact absurd hr (by simp)

/-! ### The reconciliation invariant of fund/withdraw-only runs -/

/-- Every logged transaction is a FUND or WITHDRAW over a whole number of
cents. -/
def FWCentLog (txs : List Transaction) : Prop :=
  ∀ t ∈ txs, (t.type = .FUND ∨ t.type = .WITHDRAW) ∧ centQ t.amount.toRat

/-- A fund or withdraw call over a whole number of cents. -/
def FWCentOp : Op → Prop
  | .fund _ _ a => centQ a.toRat
  | .withdraw _ _ a => centQ a.toRat
  | .convert _ _ _ _ => False

/-- The invariant: every user's log is fund/withdraw-only over whole cents,
wallet keys are distinct, and each stored balance equals the exact replay
total of its currency (absent entries replay to 0). -/
def Inv3 (s : WalletService) : Prop :=
  ∀ u : String,
    NDK (wdict s u) ∧ FWCentLog (logOf s u) ∧
    ∀ c : String,
      match lookupL (wdict s u) c with
      | none => replaySum (logOf s u) c = 0
      | some v => v.toRat = replaySum (logOf s u) c ∧ 0 < v.toRat

theorem inv3_point {s : WalletService} {u c : String} (h : Inv3 s) :
    (curDec s u c).toRat = replaySum (logOf s u) c ∧ 0 ≤ (curDec s u c).toRat := by
  obtain ⟨-, -, hpt⟩ := h u
  have hc := hpt c
  rw [curDec_eq_wlookup, wlookup]
  cases hw : lookupL (wdict s u) c with
  | none =>
    rw [hw] at hc
    refine ⟨?_, ?_⟩
    · show Dec.zero.toRat = _
      rw [Dec.toRat_zero, hc]
    · show (0 : ℚ) ≤ Dec.zero.toRat
      rw [Dec.toRat_zero]
  | some v =>
    rw [hw] at hc
    exact ⟨hc.1, le_of_lt hc.2⟩

/-- The shape of the replay contributions of the two simple transaction
kinds. -/
theorem contrib_fund (tid u c : String) (a : Dec) (c' : String) :
    contrib { id := tid, user_id := u, type := .FUND, currency := c, amount := a } c' =
      if c = c' then a.toRat else 0 := rfl

theorem contrib_withdraw (tid u c : String) (a : Dec) (c' : String) :
    contrib { id := tid, user_id := u, type := .WITHDRAW, currency := c, amount := a } c' =
      if c = c' then -a.toRat else 0 := rfl

theorem ndk_wdict_update {w : List (String × Dec)} (c : String) (x : Dec)
    (h : NDK w) :
    NDK (if x.quantize2.eqv Dec.zero then eraseL w c else insertL w c x.quantize2) := by
  split
  · exact ndk_eraseL w c h
  · exact ndk_insertL w c _ h

/-- One fund/withdraw-style balance update (store the rounded new balance `X`
for currency `c`, drop it when it rounds to zero, and append `tx` to the log)
preserves the per-user invariant. -/
theorem inv3_user_update (s : WalletService) (u c : String) (X : Dec)
    (tx : Transaction) (hinv : Inv3 s)
    (htype : tx.type = .FUND ∨ tx.type = .WITHDRAW)
    (hcent : centQ tx.amount.toRat) (hcur : tx.currency = c)
    (hXval : X.toRat = replaySum (logOf s u) c + contrib tx c)
    (hXnn : 0 ≤ X.toRat) (hXcent : centQ X.toRat) :
    NDK (if X.quantize2.eqv Dec.zero then eraseL (wdict s u) c
         else insertL (wdict s u) c X.quantize2) ∧
    FWCentLog (logOf s u ++ [tx]) ∧
    ∀ c' : String,
      match lookupL (if X.quantize2.eqv Dec.zero then eraseL (wdict s u) c
        else insertL (wdict s u) c X.quantize2) c' with
      | none => replaySum (logOf s u ++ [tx]) c' = 0
      | some v => v.toRat = replaySum (logOf s u ++ [tx]) c' ∧ 0 < v.toRat := by
  have hq : X.quantize2.toRat = X.toRat := by
    rw [Dec.toRat_quantize2, rndQ_of_centQ hXcent]
  obtain ⟨hndku, hclu, hptu⟩ := hinv u
  refine ⟨ndk_wdict_update c X hndku, ?_, ?_⟩
  · intro t ht
    rcases List.mem_append.mp ht with hm | hn
    · exact hclu t hm
    · rw [List.mem_singleton] at hn
      subst hn
      exact ⟨htype, hcent⟩
  · intro c'
    by_cases hcc : c = c'
    · subst hcc
      by_cases hz : X.quantize2.eqv Dec.zero
      · rw [if_pos hz, lookupL_eraseL, if_pos rfl]
        show replaySum (logOf s u ++ [tx]) c = 0
        rw [replaySum_append_single, ← hXval]
        rw [Dec.eqv_zero_iff, hq] at hz
        exact hz
      · rw [if_neg hz, lookupL_insertL, if_pos rfl]
        rw [Dec.eqv_zero_iff, hq] at hz
        refine ⟨?_, ?_⟩
        · rw [hq, replaySum_append_single, ← hXval]
        · rw [hq]
          exact lt_of_le_of_ne hXnn (Ne.symm hz)
    · have hnt : ¬ touches tx c' := by
        rw [touches]
        rcases htype with h | h <;> rw [h] <;>
          exact fun hh => hcc (by rw [← hcur, hh])
      have hSum : replaySum (logOf s u ++ [tx]) c' = replaySum (logOf s u) c' := by
        rw [replaySum_append_single, contrib_of_not_touches hnt, add_zero]
      have hlk : lookupL (if X.quantize2.eqv Dec.zero then eraseL (wdict s u) c
          else insertL (wdict s u) c X.quantize2) c' = lookupL (wdict s u) c' := by
        split
        · rw [lookupL_eraseL, if_neg hcc]
        · rw [lookupL_insertL, if_neg hcc]
      rw [hSum, hlk]
      exact hptu c'

theorem inv3_step (s : WalletService) (op : Op) (hop : FWCentOp op) (hinv : Inv3 s) :
    Inv3 (applyOp s op).2 := by
  cases op with
  | convert u f t a => exact absurd hop (by rw [FWCentOp]; exact fun h => h)
  | fund u c a =>
    by_cases ha : a ≤ Dec.zero
    · show Inv3 (fund_wallet s u c a).2
      rw [fund_wallet_err s u c a ha]
      exact hinv
    · intro u'
      show NDK (wdict (fund_wallet s u c a).2 u') ∧
        FWCentLog (logOf (fund_wallet s u c a).2 u') ∧
        ∀ c' : String,
          match lookupL (wdict (fund_wallet s u c a).2 u') c' with
          | none => replaySum (logOf (fund_wallet s u c a).2 u') c' = 0
          | some v => v.toRat = replaySum (logOf (fund_wallet s u c a).2 u') c' ∧
              0 < v.toRat
      rw [fund_ok_wdict s u c a ha, fund_ok_logOf s u c a ha]
      by_cases huu : u = u'
      · subst huu
        simp only [eq_self_iff_true, if_true]
        have hpoint := inv3_point (u := u) (c := c) hinv
        have hScent2 : centQ (replaySum (logOf s u) c) :=
          centQ_replaySum (fun tx htx => ((hinv u).2.1 tx htx).2)
        refine inv3_user_update s u c ((curDec s u c).add a) _ hinv (Or.inl rfl) hop rfl
          ?_ ?_ ?_
        · rw [Dec.toRat_add, contrib_fund, if_pos rfl, hpoint.1]
        · rw [Dec.toRat_add]
          exact add_nonneg hpoint.2 (le_of_lt (pos_amount_iff.mp ha))
        · rw [Dec.toRat_add]
          exact centQ_add (hpoint.1 ▸ hScent2) hop
      · simp only [if_neg huu]
        exact hinv u'
  | withdraw u c a =>
    by_cases ha : a ≤ Dec.zero
    · show Inv3 (withdraw_funds s u c a).2
      rw [withdraw_err_invalid s u c a ha]
      exact hinv
    · by_cases hib : curDec s u c < a
      · show Inv3 (withdraw_funds s u c a).2
        rw [withdraw_err_insufficient s u c a ha hib]
        intro u'
        show NDK (wdict (_ensure_wallet_exists s u) u') ∧
          FWCentLog (logOf (_ensure_wallet_exists s u) u') ∧
          ∀ c' : String,
            match lookupL (wdict (_ensure_wallet_exists s u) u') c' with
            | none => replaySum (logOf (_ensure_wallet_exists s u) u') c' = 0
            | some v => v.toRat = replaySum (logOf (_ensure_wallet_exists s u) u') c' ∧
                0 < v.toRat
        rw [ensure_wdict, ensure_logOf]
        exact hinv u'
      · intro u'
        show NDK (wdict (withdraw_funds s u c a).2 u') ∧
          FWCentLog (logOf (withdraw_funds s u c a).2 u') ∧
          ∀ c' : String,
            match lookupL (wdict (withdraw_funds s u c a).2 u') c' with
            | none => replaySum (logOf (withdraw_funds s u c a).2 u') c' = 0
            | some v => v.toRat = replaySum (logOf (withdraw_funds s u c a).2 u') c' ∧
                0 < v.toRat
        rw [withdraw_ok_wdict s u c a ha hib, withdraw_ok_logOf s u c a ha hib]
        by_cases huu : u = u'
        · subst huu
          simp only [eq_self_iff_true, if_true]
          have hpoint := inv3_point (u := u) (c := c) hinv
          have hScent2 : centQ (replaySum (logOf s u) c) :=
            centQ_replaySum (fun tx htx => ((hinv u).2.1 tx htx).2)
          refine inv3_user_update s u c ((curDec s u c).sub a) _ hinv (Or.inr rfl) hop rfl
            ?_ ?_ ?_
          · rw [Dec.toRat_sub, contrib_withdraw, if_pos rfl, hpoint.1]
            ring
          · rw [Dec.toRat_sub]
            exact sub_nonneg.mpr (not_lt_iff.mp hib)
          · rw [Dec.toRat_sub]
            exact centQ_sub (hpoint.1 ▸ hScent2) hop
        · simp only [if_neg huu]
          exact hinv u'

theorem inv3_run (ops : List Op) : ∀ s : WalletService,
    (∀ op ∈ ops, FWCentOp op) → Inv3 s → Inv3 (runOps s ops) := by
  induction ops with
  | nil => exact fun s _ h => h
  | cons op ops ih =>
    intro s hops h
    exact ih (applyOp s op).2 (fun op' hop' => hops op' (List.mem_cons_of_mem op hop'))
      (inv3_step s op (hops op (List.mem_cons_self op ops)) h)

theorem init_inv3 : Inv3 WalletService.init := by
  intro u
  refine ⟨ndk_nil, ?_, ?_⟩
  · intro t ht
    exact absurd ht (by simp [logOf, WalletService.init, lookupL])
  · intro c
    show (match (none : Option Dec) with
      | none => replaySum (logOf WalletService.init u) c = 0
      | some v => v.toRat = replaySum (logOf WalletService.init u) c ∧ 0 < v.toRat : Prop)
    rfl

theorem runOk_eq_runOps {ops : List Op} : ∀ {s s' : WalletService},
    runOk s ops = some s' → runOps s ops = s' := by
  induction ops with
  | nil =>
    intro s s' h
    exact Option.some.inj h
  | cons op ops ih =>
    intro s s' h
    rw [runOk] at h
    rw [runOps]
    revert h
    cases (applyOp s op) with
    | mk r s₂ =>
      cases r with
      | ok v => exact fun h => ih h
      | error e => exact fun h => absurd h (by simp)

/-! ### The claims -/

/-- C1: over every sequence of successful or failing fund/withdraw/convert
calls from a fresh `WalletService`, every stored per-currency balance is
either absent or strictly positive; and `_set_balance` removes (rather than
stores) a balance whose rounding equals zero. -/
theorem c1_stored_balances_positive :
    (∀ (ops : List Op) (u c : String) (v : Dec),
       wlookup (runOps WalletService.init ops) u c = some v → Dec.zero < v) ∧
    (∀ (s : WalletService) (u c : String) (a : Dec),
       (_round_amount a c).eqv Dec.zero → wlookup (_set_balance s u c a) u c = none) := by
  constructor
  · intro ops u c v h
    exact (inv1_run ops WalletService.init init_posBal init_posRates).1 u c v h
  · intro s u c a h
    have h' : a.quantize2.eqv Dec.zero := h
    rw [set_balance_wlookup, if_pos (And.intro rfl rfl), if_pos h']

/-- Witness for C1 at concrete inputs: funding 5 USD stores the strictly
positive balance 5.00, and setting a balance that rounds to zero stores
nothing. -/
theorem c1_witness :
    Dec.zero < (⟨500, 2⟩ : Dec) ∧
    wlookup (_set_balance WalletService.init "u" "USD" ⟨4, 3⟩) "u" "USD" = none :=
  ⟨c1_stored_balances_positive.1 [Op.fund "u" "USD" ⟨5, 0⟩] "u" "USD" ⟨500, 2⟩ (by decide),
   c1_stored_balances_positive.2 WalletService.init "u" "USD" ⟨4, 3⟩ (by decide)⟩

/-- C2: whenever a fund/withdraw/convert call raises, the stored balances and
every transaction log are exactly as before the call (so are the rate table
and the counter); a failing withdraw or convert reports the correct available
amount in its `InsufficientBalance` error. -/
theorem c2_errors_are_atomic (s : WalletService) (op : Op) (e : WalletError)
    (h : (applyOp s op).1 = .error e) :
    (∀ u c, wlookup (applyOp s op).2 u c = wlookup s u c) ∧
    (∀ u, logOf (applyOp s op).2 u = logOf s u) ∧
    (applyOp s op).2.transaction_counter = s.transaction_counter ∧
    (applyOp s op).2.fx_rates = s.fx_rates ∧
    (∀ u c a, op = .withdraw u c a → ¬ a ≤ Dec.zero →
      curDec s u c < a ∧ e = .InsufficientBalance (curDec s u c) c) ∧
    (∀ u f t a r, op = .convert u f t a → ¬ a ≤ Dec.zero → ¬ f = t →
      lookupL s.fx_rates (f, t) = some r →
      curDec s u f < a ∧ e = .InsufficientBalance (curDec s u f) f) := by
  cases op with
  | fund u c a =>
    by_cases ha : a ≤ Dec.zero
    · have heq := fund_wallet_err s u c a ha
      have hs2 : (applyOp s (Op.fund u c a)).2 = s := by
        show (fund_wallet s u c a).2 = s
        rw [heq]
      refine ⟨?_, ?_, ?_, ?_, ?_, ?_⟩
      · intro u' c'
        rw [hs2]
      · intro u'
        rw [hs2]
      · rw [hs2]
      · rw [hs2]
      · intro u' c' a' heq'
        cases heq'
      · intro u' f' t' a' r' heq'
        cases heq'
    · exfalso
      have h1 : (applyOp s (Op.fund u c a)).1 = Except.ok () := by
        show ((fund_wallet s u c a).1.map fun _ => ()) = _
        rw [fund_ok_fst s u c a ha]
        rfl
      rw [h1] at h
      exact absurd h (by simp)
  | withdraw u c a =>
    by_cases ha : a ≤ Dec.zero
    · have heq := withdraw_err_invalid s u c a ha
      have hs2 : (applyOp s (Op.withdraw u c a)).2 = s := by
        show (withdraw_funds s u c a).2 = s
        rw [heq]
      refine ⟨?_, ?_, ?_, ?_, ?_, ?_⟩
      · intro u' c'
        rw [hs2]
      · intro u'
        rw [hs2]
      · rw [hs2]
      · rw [hs2]
      · intro u' c' a' heq' ha'
        cases heq'
        exact absurd ha ha'
      · intro u' f' t' a' r' heq'
        cases heq'
    · by_cases hib : curDec s u c < a
      · have heq := withdraw_err_insufficient s u c a ha hib
        have hs2 : (applyOp s (Op.withdraw u c a)).2 = _ensure_wallet_exists s u := by
          show (withdraw_funds s u c a).2 = _
          rw [heq]
        have h1 : (applyOp s (Op.withdraw u c a)).1 =
            .error (.InsufficientBalance (curDec s u c) c) := by
          show ((withdraw_funds s u c a).1.map fun _ => ()) = _
          rw [heq]
          rfl
        rw [h1] at h
        have he : e = .InsufficientBalance (curDec s u c) c := (Except.error.inj h).symm
        refine ⟨?_, ?_, ?_, ?_, ?_, ?_⟩
        · intro u' c'
          rw [hs2]
          exact ensure_wlookup s u u' c'
        · intro u'
          rw [hs2]
          exact ensure_logOf s u u'
        · rw [hs2]
          exact ensure_counter s u
        · rw [hs2]
          exact ensure_fx s u
        · intro u' c' a' heq' ha'
          cases heq'
          exact ⟨hib, he⟩
        · intro u' f' t' a' r' heq'
          cases heq'
      · exfalso
        have h1 : (applyOp s (Op.withdraw u c a)).1 = Except.ok () := by
          show ((withdraw_funds s u c a).1.map fun _ => ()) = _
          rw [withdraw_ok_fst s u c a ha hib]
          rfl
        rw [h1] at h
        exact absurd h (by simp)
  | convert u f t a =>
    by_cases ha : a ≤ Dec.zero
    · have heq := convert_err_invalid s u f t a ha
      have hs2 : (applyOp s (Op.convert u f t a)).2 = s := by
        show (convert_currency s u f t a).2 = s
        rw [heq]
      refine ⟨?_, ?_, ?_, ?_, ?_, ?_⟩
      · intro u' c'
        rw [hs2]
      · intro u'
        rw [hs2]
      · rw [hs2]
      · rw [hs2]
      · intro u' c' a' heq'
        cases heq'
      · intro u' f' t' a' r' heq' ha'
        cases heq'
        exact absurd ha ha'
    · by_cases hft : f = t
      · have heq := convert_err_same s u f t a ha hft
        have hs2 : (applyOp s (Op.convert u f t a)).2 = s := by
          show (convert_currency s u f t a).2 = s
          rw [heq]
        refine ⟨?_, ?_, ?_, ?_, ?_, ?_⟩
        · intro u' c'
          rw [hs2]
        · intro u'
          rw [hs2]
        · rw [hs2]
        · rw [hs2]
        · intro u' c' a' heq'
          cases heq'
        · intro u' f' t' a' r' heq' ha' hft'
          cases heq'
          exact absurd hft hft'
      · cases hr : lookupL s.fx_rates (f, t) with
        | none =>
          have heq := convert_err_rate s u f t a ha hft hr
          have hs2 : (applyOp s (Op.convert u f t a)).2 = s := by
            show (convert_currency s u f t a).2 = s
            rw [heq]
          refine ⟨?_, ?_, ?_, ?_, ?_, ?_⟩
          · intro u' c'
            rw [hs2]
          · intro u'
            rw [hs2]
          · rw [hs2]
          · rw [hs2]
          · intro u' c' a' heq'
            cases heq'
          · intro u' f' t' a' r' heq' ha' hft' hr'
            cases heq'
            rw [hr] at hr'
            cases hr'
        | some r =>
          by_cases hib : curDec s u f < a
          · have heq := convert_err_insufficient s u f t a r ha hft hr hib
            have hs2 : (applyOp s (Op.convert u f t a)).2 =
                _ensure_wallet_exists s u := by
              show (convert_currency s u f t a).2 = _
              rw [heq]
            have h1 : (applyOp s (Op.convert u f t a)).1 =
                .error (.InsufficientBalance (curDec s u f) f) := by
              show ((convert_currency s u f t a).1.map fun _ => ()) = _
              rw [heq]
              rfl
            rw [h1] at h
            have he : e = .InsufficientBalance (curDec s u f) f :=
              (Except.error.inj h).symm
            refine ⟨?_, ?_, ?_, ?_, ?_, ?_⟩
            · intro u' c'
              rw [hs2]
              exact ensure_wlookup s u u' c'
            · intro u'
              rw [hs2]
              exact ensure_logOf s u u'
            · rw [hs2]
              exact ensure_counter s u
            · rw [hs2]
              exact ensure_fx s u
            · intro u' c' a' heq'
              cases heq'
            · intro u' f' t' a' r' heq' ha' hft' hr'
              cases heq'
              exact ⟨hib, he⟩
          · exfalso
            have h1 : (applyOp s (Op.convert u f t a)).1 = Except.ok () := by
              show ((convert_currency s u f t a).1.map fun _ => ()) = _
              rw [convert_ok_fst s u f t a r ha hft hr hib]
              rfl
            rw [h1] at h
            exact absurd h (by simp)

/-- Witness for C2: an insufficient-balance withdraw on a fresh service
leaves the log unchanged. -/
theorem c2_witness :
    logOf (applyOp WalletService.init (Op.withdraw "u" "USD" ⟨5, 0⟩)).2 "u" =
      logOf WalletService.init "u" :=
  (c2_errors_are_atomic WalletService.init (Op.withdraw "u" "USD" ⟨5, 0⟩)
    (.InsufficientBalance ⟨0, 0⟩ "USD") (by decide)).2.1 "u"

/-- C3 fails as stated: two successful funds of 0.004 USD leave no stored
balance (each rounds to zero) while the replay computes 0.008, rounded to
0.01, so reconcile reports balanced = false. -/
theorem c3_counterexample :
    (runOk WalletService.init
      [Op.fund "u" "USD" ⟨4, 3⟩, Op.fund "u" "USD" ⟨4, 3⟩]).isSome = true ∧
    (reconcile_balances
      (runOps WalletService.init [Op.fund "u" "USD" ⟨4, 3⟩, Op.fund "u" "USD" ⟨4, 3⟩])
      "u").1.balanced = false := by decide

/-- C3 (amended): for every sequence of successful fund/withdraw calls whose
amounts are whole numbers of cents, reconcile returns calculated balances
equal (as Python dicts) to the current balances, and balanced = true. -/
theorem c3_amended_reconcile_fixed_point (ops : List Op)
    (hops : ∀ op ∈ ops, FWCentOp op) (s' : WalletService)
    (hrun : runOk WalletService.init ops = some s') (u : String) :
    (reconcile_balances s' u).1.balanced = true ∧
    dictEqvBy Dec.beqv (reconcile_balances s' u).1.current_balances
      (reconcile_balances s' u).1.calculated_balances = true := by
  have hs : runOps WalletService.init ops = s' := runOk_eq_runOps hrun
  have hinv : Inv3 s' := hs ▸ inv3_run ops WalletService.init hops init_inv3
  obtain ⟨hndk, hcl, hpt⟩ := hinv u
  have heqv := dictEqv_wdict_calcOf (wdict s' u) (logOf s' u) hndk
    (fun tx htx => (hcl tx htx).2) hpt
  rw [reconcile_eq]
  exact ⟨heqv, heqv⟩

/-- Witness for C3 (amended) at a concrete fund-then-withdraw run. -/
theorem c3_witness :
    (reconcile_balances (runOps WalletService.init
      [Op.fund "u" "USD" ⟨500, 2⟩, Op.withdraw "u" "USD" ⟨250, 2⟩]) "u").1.balanced =
      true :=
  (c3_amended_reconcile_fixed_point
    [Op.fund "u" "USD" ⟨500, 2⟩, Op.withdraw "u" "USD" ⟨250, 2⟩]
    (by intro op hop
        rcases List.mem_cons.mp hop with rfl | hop2
        · exact ⟨500, by norm_num [Dec.toRat]⟩
        · rcases List.mem_cons.mp hop2 with rfl | hop3
          · exact ⟨250, by norm_num [Dec.toRat]⟩
          · exact absurd hop3 (by simp))
    (runOps WalletService.init
      [Op.fund "u" "USD" ⟨500, 2⟩, Op.withdraw "u" "USD" ⟨250, 2⟩])
    (by decide) "u").1

/-- C4 fails as stated in its last part: funding 0.004 USD into an empty
wallet returns new_balance = 0.004 but stores nothing for USD, so the
returned new_balance is not "the value now stored". -/
theorem c4_counterexample :
    (fund_wallet WalletService.init "u" "USD" ⟨4, 3⟩).1 =
      .ok { new_balance := ⟨4, 3⟩ } ∧
    wlookup (fund_wallet WalletService.init "u" "USD" ⟨4, 3⟩).2 "u" "USD" = none ∧
    ¬ (⟨4, 3⟩ : Dec).eqv Dec.zero := by decide

/-- C4 (amended): fund increases the stored balance to the 2-decimal rounding
of (current + amount) — creating the entry when absent and removing it when
the rounding is zero — appends a FUND transaction with the raw input amount,
and returns as new_balance the unrounded sum current + amount (which can
differ from the stored value). -/
theorem c4_amended_fund_effect (s : WalletService) (u c : String) (a : Dec)
    (h : ¬ a ≤ Dec.zero) :
    (fund_wallet s u c a).1 = .ok { new_balance := (curDec s u c).add a } ∧
    wlookup (fund_wallet s u c a).2 u c =
      (if ((curDec s u c).add a).quantize2.eqv Dec.zero then none
       else some ((curDec s u c).add a).quantize2) ∧
    logOf (fund_wallet s u c a).2 u =
      logOf s u ++
        [{ id := txId (s.transaction_counter + 1), user_id := u,
           type := .FUND, currency := c, amount := a }] ∧
    (∀ u' c', ¬ (u = u' ∧ c = c') →
      wlookup (fund_wallet s u c a).2 u' c' = wlookup s u' c') := by
  refine ⟨fund_ok_fst s u c a h, ?_, ?_, ?_⟩
  · rw [fund_ok_wlookup s u c a h, if_pos (And.intro rfl rfl)]
  · rw [fund_ok_logOf s u c a h, if_pos rfl]
  · intro u' c' hne
    rw [fund_ok_wlookup s u c a h, if_neg hne]

/-- Witness for C4 (amended): funding 5 USD into a fresh wallet. -/
theorem c4_witness :
    (fund_wallet WalletService.init "u" "USD" ⟨5, 0⟩).1 =
      .ok { new_balance := (curDec WalletService.init "u" "USD").add ⟨5, 0⟩ } :=
  (c4_amended_fund_effect WalletService.init "u" "USD" ⟨5, 0⟩ (by decide)).1

/-- C5: `convert_currency` rejects with exactly one of four errors, checked in
order amount-validity → same-currency → rate-availability → balance-sufficiency
(against the unrounded requested amount), and succeeds when every check
passes. -/
theorem c5_convert_error_order (s : WalletService) (u f t : String) (a : Dec) :
    ((convert_currency s u f t a).1 = .error .InvalidAmount ↔ a ≤ Dec.zero) ∧
    ((convert_currency s u f t a).1 = .error .SameCurrency ↔
      ¬ a ≤ Dec.zero ∧ f = t) ∧
    (∀ f' t', (convert_currency s u f t a).1 = .error (.RateUnavailable f' t') ↔
      ¬ a ≤ Dec.zero ∧ ¬ f = t ∧ lookupL s.fx_rates (f, t) = none ∧
        f' = f ∧ t' = t) ∧
    (∀ avail cur,
      (convert_currency s u f t a).1 = .error (.InsufficientBalance avail cur) ↔
      ¬ a ≤ Dec.zero ∧ ¬ f = t ∧ (∃ r, lookupL s.fx_rates (f, t) = some r) ∧
        curDec s u f < a ∧ avail = curDec s u f ∧ cur = f) ∧
    ((∃ res, (convert_currency s u f t a).1 = .ok res) ↔
      ¬ a ≤ Dec.zero ∧ ¬ f = t ∧ (∃ r, lookupL s.fx_rates (f, t) = some r) ∧
        ¬ curDec s u f < a) := by
  by_cases ha : a ≤ Dec.zero
  · simp [convert_err_invalid s u f t a ha, ha]
  · by_cases hft : f = t
    · subst hft
      simp [convert_err_same s u f f a ha rfl, ha]
    · cases hr : lookupL s.fx_rates (f, t) with
      | none =>
        simp [convert_err_rate s u f t a ha hft hr, ha, hft, hr, eq_comm]
      | some r =>
        by_cases hib : curDec s u f < a
        · simp [convert_err_insufficient s u f t a r ha hft hr hib, ha, hft, hr,
            hib, eq_comm]
        · simp [convert_ok_fst s u f t a r ha hft hr hib, ha, hft, hr, hib]

/-- C6: conversion arithmetic is exact decimal with half-up rounding at 2
places: 100 USD at the seeded rate 18.70 yields exactly 1870.00 MXN, and
1870.00 MXN at the seeded rate 0.053 yields 99.11 USD — the round-trip loss is
preserved. -/
theorem c6_conversion_arithmetic :
    (convert_currency (fund_wallet WalletService.init "u" "USD" ⟨100, 0⟩).2
      "u" "USD" "MXN" ⟨100, 0⟩).1 =
      .ok { converted_amount := ⟨187000, 2⟩, exchange_rate := ⟨1870, 2⟩,
            from_balance := ⟨0, 2⟩, to_balance := ⟨187000, 2⟩ } ∧
    (⟨187000, 2⟩ : Dec).eqv ⟨1870, 0⟩ ∧
    ((⟨187000, 2⟩ : Dec).mul ⟨53, 3⟩).quantize2 = ⟨9911, 2⟩ ∧
    (convert_currency (fund_wallet WalletService.init "v" "MXN" ⟨187000, 2⟩).2
      "v" "MXN" "USD" ⟨187000, 2⟩).1 =
      .ok { converted_amount := ⟨9911, 2⟩, exchange_rate := ⟨53, 3⟩,
            from_balance := ⟨0, 2⟩, to_balance := ⟨9911, 2⟩ } := by decide

/-- C7: reconcile replays the log using the rate stored on each CONVERT
transaction, so its result is unchanged by later `update_fx_rates` calls; the
concrete fund-1000-USD / convert-100-USD-to-MXN scenario reconciles to
{USD: 900.00, MXN: 1870.00} with balanced = true even after the USD→MXN rate
is changed to 20. -/
theorem c7_reconcile_replays_stored_rates :
    (∀ (s : WalletService) (nr : List ((String × String) × Dec)) (u : String),
       (reconcile_balances (update_fx_rates s nr) u).1 =
         (reconcile_balances s u).1) ∧
    ((reconcile_balances
        (update_fx_rates
          (convert_currency (fund_wallet WalletService.init "u" "USD" ⟨1000, 0⟩).2
            "u" "USD" "MXN" ⟨100, 0⟩).2
          [(("USD", "MXN"), ⟨20, 0⟩)]) "u").1.current_balances =
       [("USD", ⟨90000, 2⟩), ("MXN", ⟨187000, 2⟩)] ∧
     (reconcile_balances
        (update_fx_rates
          (convert_currency (fund_wallet WalletService.init "u" "USD" ⟨1000, 0⟩).2
            "u" "USD" "MXN" ⟨100, 0⟩).2
          [(("USD", "MXN"), ⟨20, 0⟩)]) "u").1.calculated_balances =
       [("USD", ⟨90000, 2⟩), ("MXN", ⟨187000, 2⟩)] ∧
     (reconcile_balances
        (update_fx_rates
          (convert_currency (fund_wallet WalletService.init "u" "USD" ⟨1000, 0⟩).2
            "u" "USD" "MXN" ⟨100, 0⟩).2
          [(("USD", "MXN"), ⟨20, 0⟩)]) "u").1.balanced = true) := by
  refine ⟨?_, by decide⟩
  intro s nr u
  rw [reconcile_eq, reconcile_eq]
  rfl

/-- C8 fails as stated: reconciling a never-seen user mutates the service —
`_ensure_wallet_exists` creates empty wallet and transaction entries for the
user. -/
theorem c8_counterexample :
    lookupL WalletService.init.wallets "alice" = none ∧
    lookupL (reconcile_balances WalletService.init "alice").2.wallets "alice" =
      some [] ∧
    lookupL (reconcile_balances WalletService.init "alice").2.transactions
      "alice" = some [] := by decide

/-- C8 (amended): reconcile's only state effect is `_ensure_wallet_exists` —
it changes no stored balance, no log, no rate and not the counter, and for a
user whose wallet and log entries already exist it is a no-op on the state. -/
theorem c8_amended_reconcile_effect (s : WalletService) (u : String) :
    (reconcile_balances s u).2 = _ensure_wallet_exists s u ∧
    (reconcile_balances s u).2.fx_rates = s.fx_rates ∧
    (reconcile_balances s u).2.transaction_counter = s.transaction_counter ∧
    (∀ u' c, wlookup (reconcile_balances s u).2 u' c = wlookup s u' c) ∧
    (∀ u', logOf (reconcile_balances s u).2 u' = logOf s u') ∧
    ((lookupL s.wallets u).isSome = true →
      (lookupL s.transactions u).isSome = true →
      (reconcile_balances s u).2 = s) := by
  rw [reconcile_eq]
  exact ⟨rfl, ensure_fx s u, ensure_counter s u,
    fun u' c => ensure_wlookup s u u' c, fun u' => ensure_logOf s u u',
    fun hw ht => ensure_eq_self s u hw ht⟩

/-- C9: transaction ids come from the single service-wide counter: over any
sequence of calls by any users, the n-th successful call creates the
transaction with id `txId n` = "tx_" ++ n zero-padded to 6 digits, `txId` is
injective (ids are globally unique, ordered by creation), and counter value 7
formats as "tx_000007". -/
theorem c9_transaction_ids (ops : List Op) :
    (runTrace WalletService.init ops).2.map Transaction.id =
      (List.range (successCount WalletService.init ops)).map
        (fun i => txId (i + 1)) ∧
    (runTrace WalletService.init ops).1.transaction_counter =
      successCount WalletService.init ops ∧
    Function.Injective txId ∧
    txId 7 = "tx_000007" := by
  have h := runTrace_spec ops WalletService.init
  have hc : WalletService.init.transaction_counter = 0 := rfl
  refine ⟨?_, ?_, txId_inj, by decide⟩
  · rw [h.1]
    refine List.map_congr_left ?_
    intro i _
    show txId (WalletService.init.transaction_counter + i + 1) = txId (i + 1)
    rw [hc]
    exact congrArg txId (by omega)
  · rw [h.2, hc]
    exact Nat.zero_add _

/-- A nonnegative value below half a cent rounds to zero. -/
theorem rndQ_small_zero {x : ℚ} (h0 : 0 ≤ x) (hs : x < 1 / 200) : rndQ x = 0 := by
  rw [rndQ, if_pos h0]
  have hfl : ⌊x * 100 + 1 / 2⌋ = 0 := by
    rw [Int.floor_eq_zero_iff, Set.mem_Ico]
    constructor
    · nlinarith
    · nlinarith
  rw [hfl]
  norm_num

/-- C10: funding any amount strictly between 0 and 0.005 into a currency with
no existing entry succeeds and returns new_balance numerically equal to the
amount, appends a FUND transaction carrying the amount, yet stores no entry
for the currency (the balance rounds to 0.00 and is removed), so the funded
money is absent from get_balances. -/
theorem c10_subcent_fund_vanishes (s : WalletService) (u c : String) (a : Dec)
    (hnone : wlookup s u c = none) (hpos : ¬ a ≤ Dec.zero)
    (hsmall : a < (⟨5, 3⟩ : Dec)) :
    (∃ nb, (fund_wallet s u c a).1 = .ok { new_balance := nb } ∧ nb.eqv a) ∧
    wlookup (fund_wallet s u c a).2 u c = none ∧
    logOf (fund_wallet s u c a).2 u =
      logOf s u ++
        [{ id := txId (s.transaction_counter + 1), user_id := u,
           type := .FUND, currency := c, amount := a }] ∧
    lookupL (get_balances (fund_wallet s u c a).2 u).1 c = none := by
  have hz : curDec s u c = Dec.zero := by
    rw [curDec_eq_wlookup, hnone]
    rfl
  have haQ : 0 < a.toRat := pos_amount_iff.mp hpos
  have hsmallQ : a.toRat < 1 / 200 := by
    have h5 : (⟨5, 3⟩ : Dec).toRat = 1 / 200 := by
      rw [Dec.toRat]
      norm_num
    rw [← h5]
    exact Dec.lt_iff.mp hsmall
  have hq : ((curDec s u c).add a).quantize2.eqv Dec.zero := by
    rw [Dec.eqv_zero_iff, Dec.toRat_quantize2, Dec.toRat_add, hz, Dec.toRat_zero,
      zero_add]
    exact rndQ_small_zero (le_of_lt haQ) hsmallQ
  have hwl : wlookup (fund_wallet s u c a).2 u c = none := by
    rw [fund_ok_wlookup s u c a hpos, if_pos (And.intro rfl rfl), if_pos hq]
  refine ⟨⟨(curDec s u c).add a, fund_ok_fst s u c a hpos, ?_⟩, hwl, ?_, ?_⟩
  · rw [Dec.eqv_iff, Dec.toRat_add, hz, Dec.toRat_zero, zero_add]
  · rw [fund_ok_logOf s u c a hpos, if_pos rfl]
  · rw [get_balances_eq]
    exact hwl

/-- Witness for C10: funding 0.004 USD into a fresh service stores nothing. -/
theorem c10_witness :
    wlookup (fund_wallet WalletService.init "u" "USD" ⟨4, 3⟩).2 "u" "USD" = none :=
  (c10_subcent_fund_vanishes WalletService.init "u" "USD" ⟨4, 3⟩ (by decide)
    (by decide) (by decide)).2.1
